import Mathlib

/-!
# Verification of the Epstein-Assistant pipeline substrate

A shallow embedding, in Lean 4, of the resumable multi-stage pipeline of the
repository: the persisted item store (`inventory.json`), the artifact layout
and its legacy-sidecar migration (`analyze_images.py`, `detect_faces.py`),
the staleness tracker (`get_max_mtime` and the mtime-vs-state comparison in
`ingest_to_firebase.py`), the repair tool (`repair_inventory.py`), and the
batched publish passes (`ingest_documents`, `ingest_images`, `ingest_faces`).

External collaborators (the filesystem, `json.load`/`json.dump`, Firebase
uploads and batch commits, the vision model) are modelled as explicit oracle
parameters; everything else is translated from the Python source.  File paths
in the repository are relative ("epstein_files/..."), which the path helpers
below assume.
-/

set_option autoImplicit false

namespace EpsteinAssistant

/-! ## String and path helpers (mirroring `os.path` on relative paths)

The helpers are written directly over `String.data` so every concrete
computation reduces by `decide`/`rfl`. -/

/-- Split a list of characters on a separator character. -/
def splitChars (sep : Char) : List Char → List (List Char)
  | [] => [[]]
  | c :: cs =>
    let rest := splitChars sep cs
    if c = sep then [] :: rest
    else match rest with
      | [] => [[c]]
      | r :: rs => (c :: r) :: rs

/-- `s.split(sep)` on strings. -/
def strSplit (sep : Char) (s : String) : List String :=
  (splitChars sep s.data).map String.mk

/-- Join strings with a separator, as `sep.join(parts)`. -/
def joinWith (sep : String) : List String → String
  | [] => ""
  | [x] => x
  | x :: xs => x ++ sep ++ joinWith sep xs

/-- `os.path.basename` for relative paths: the part after the last `/`. -/
def basename (p : String) : String :=
  (strSplit '/' p).getLastD ""

/-- `os.path.dirname` for relative paths: everything before the last `/`
(empty when there is no `/`). -/
def dirname (p : String) : String :=
  joinWith "/" (strSplit '/' p).dropLast

/-- `os.path.join(a, b)` for a relative `b` (the only use in the sources). -/
def pathJoin (a b : String) : String :=
  if a = "" then b else a ++ "/" ++ b

/-- The stem of a single path component: `os.path.splitext(b)[0]` for a `b`
with no `/`.  The extension starts at the last dot, provided some non-dot
character precedes it within the component. -/
def compStem (b : String) : String :=
  let r := b.data.reverse
  let rest := r.dropWhile (fun c => ¬ c = '.')
  match rest with
  | [] => b
  | _ :: pre => if pre.all (fun c => c = '.') then b else String.mk pre.reverse

/-- `os.path.splitext(p)[0]` on a full relative path. -/
def splitextRoot (p : String) : String :=
  let comps := strSplit '/' p
  joinWith "/" (comps.dropLast ++ [compStem (comps.getLastD "")])

/-- ASCII `str.lower`. -/
def charLower (c : Char) : Char :=
  if 'A' ≤ c ∧ c ≤ 'Z' then Char.ofNat (c.toNat + 32) else c

/-- `s.lower()` (ASCII, which covers the repository's paths). -/
def strLower (s : String) : String :=
  String.mk (s.data.map charLower)

/-- `s.endswith(suffix)`. -/
def strEndsWith (s suf : String) : Bool :=
  suf.data.reverse.isPrefixOf s.data.reverse

/-- Python truthiness of an optional string: `meta.get(k) or dflt`. -/
def pyOr (o : Option String) (dflt : String) : String :=
  match o with
  | some s => if s = "" then dflt else s
  | none => dflt

/-- Python falsiness of an optional string (`not v`). -/
def pyFalsy (o : Option String) : Bool :=
  match o with
  | some s => s = ""
  | none => true

/-! ### `parse_page_num` (`ingest_to_firebase.py`): first `page(\d+)` match. -/

/-- Leading decimal digits of a character list, and the rest. -/
def takeDigits : List Char → List Char × List Char
  | [] => ([], [])
  | c :: cs =>
    if c.isDigit then
      let (ds, rest) := takeDigits cs
      (c :: ds, rest)
    else ([], c :: cs)

/-- Digits to a natural number. -/
def digitsToNat (ds : List Char) : Nat :=
  ds.foldl (fun acc c => acc * 10 + (c.toNat - '0'.toNat)) 0

/-- Scan for the first occurrence of `page` followed by at least one digit,
as `re.search(r'page(\d+)', s)`. -/
def pageScan : List Char → Option Nat
  | [] => none
  | c :: rest =>
    if c = 'p' then
      match rest with
      | 'a' :: 'g' :: 'e' :: r2 =>
        let (ds, _) := takeDigits r2
        if ds.isEmpty then pageScan rest else some (digitsToNat ds)
      | _ => pageScan rest
    else pageScan rest

/-- `parse_page_num(img_name)`: e.g. `"page11_img1" -> 11`. -/
def parse_page_num (img_name : String) : Option Nat :=
  pageScan img_name.data

/-! ## Python `dict` as an insertion-ordered association list -/

/-- `d.get(k)` — the value at the first (unique) matching key. -/
def dictGet {α : Type} (d : List (String × α)) (k : String) : Option α :=
  (d.find? (fun kv => kv.1 = k)).map (·.2)

/-- `d.get(k, dflt)`. -/
def dictGetD {α : Type} (d : List (String × α)) (k : String) (dflt : α) : α :=
  (dictGet d k).getD dflt

/-- `d[k] = v`: replace in place when the key is present (keys are unique, so
replacing the first occurrence is replacement), else append at the end. -/
def dictSet {α : Type} : List (String × α) → String → α → List (String × α)
  | [], k, v => [(k, v)]
  | p :: t, k, v => if p.1 = k then (k, v) :: t else p :: dictSet t k v

/-- `d.update(u)`: set every pair of `u` in order. -/
def dictUpdate {α : Type} (d u : List (String × α)) : List (String × α) :=
  u.foldl (fun acc kv => dictSet acc kv.1 kv.2) d

theorem dictGet_dictSet_self {α : Type} (d : List (String × α)) (k : String)
    (v : α) : dictGet (dictSet d k v) k = some v := by
  induction d with
  | nil => simp [dictSet, dictGet, List.find?]
  | cons p t ih =>
    by_cases hp : p.1 = k
    · simp [dictSet, hp, dictGet, List.find?]
    · simp only [dictSet, if_neg hp, dictGet, List.find?, decide_eq_false hp]
      exact ih

theorem dictGet_dictSet_ne {α : Type} (d : List (String × α)) (k k' : String)
    (v : α) (h : k' ≠ k) : dictGet (dictSet d k v) k' = dictGet d k' := by
  induction d with
  | nil => simp [dictSet, dictGet, List.find?,
      decide_eq_false (fun hk : k = k' => h hk.symm)]
  | cons p t ih =>
    by_cases hp : p.1 = k
    · simp [dictSet, if_pos hp, dictGet, List.find?,
        decide_eq_false (fun hk : k = k' => h hk.symm),
        decide_eq_false (fun hk : p.1 = k' => h (hk.symm.trans hp))]
    · simp only [dictSet, if_neg hp, dictGet, List.find?]
      by_cases hp' : p.1 = k'
      · simp [decide_eq_true hp']
      · simp only [decide_eq_false hp']
        exact ih

/-- A `dictUpdate` is looked through: the update wins where it binds a key. -/
theorem dictGet_dictUpdate {α : Type} (d u : List (String × α)) (k : String)
    (h : dictGet u k = none) : dictGet (dictUpdate d u) k = dictGet d k := by
  induction u generalizing d with
  | nil => rfl
  | cons p t ih =>
    simp only [dictUpdate, List.foldl] at *
    simp only [dictGet, List.find?] at h
    by_cases hp : p.1 = k
    · simp [decide_eq_true hp] at h
    · simp only [decide_eq_false hp] at h
      rw [ih (dictSet d p.1 p.2) h, dictGet_dictSet_ne _ _ _ _ (fun hk => hp hk.symm)]

/-! ## File contents store

Stage scripts see the filesystem as a mapping from path to file content; a
directory's existence and listing are separate oracles where a script needs
them.  `os.rename` moves content; `open(p, 'w')` truncates and rewrites, so an
interrupted write leaves a prefix of the new content. -/

/-- File contents, as an association list from path to content. -/
abbrev AFS := List (String × String)

/-- `os.path.exists` / read of a file's content. -/
def afsGet (fs : AFS) (p : String) : Option String := dictGet fs p

/-- Remove a path. -/
def afsDel : AFS → String → AFS
  | [], _ => []
  | kv :: t, p => if kv.1 = p then afsDel t p else kv :: afsDel t p

/-- Write content at a path. -/
def afsSet (fs : AFS) (p v : String) : AFS := dictSet fs p v

/-- `os.rename(src, dst)` (sources only call it on an existing `src`). -/
def afsRename (fs : AFS) (src dst : String) : AFS :=
  match afsGet fs src with
  | some v => afsSet (afsDel fs src) dst v
  | none => fs

/-- Outcome of a file write: success, or interruption after `k` characters. -/
inductive WriteOutcome where
  | ok
  | failAt (k : Nat)
deriving DecidableEq, Repr

/-- `open(p, 'w'); f.write(content)`: the file is truncated and rewritten in
place, so an interrupted write leaves a prefix of the new content. -/
def directWrite (fs : AFS) (p content : String) (o : WriteOutcome) : AFS :=
  match o with
  | .ok => afsSet fs p content
  | .failAt k => afsSet fs p (String.mk (content.data.take k))

/-- Modelled from the spec: "artifacts are written to a temporary path and
atomically renamed into place", so that "a write failure leaves the previous
on-disk store intact".  This definition follows the spec's words, for
comparison with the code's `directWrite`; it is not found in the sources. -/
def atomicReplaceWrite (fs : AFS) (p tmp content : String) (o : WriteOutcome) :
    AFS :=
  match o with
  | .ok => afsRename (afsSet fs tmp content) tmp p
  | .failAt k => afsSet fs tmp (String.mk (content.data.take k))

/-! ## `scrape_epstein.py` — `save_inventory` -/

namespace scrape_epstein

def INVENTORY_FILE : String := "epstein_files/inventory.json"

/-- `save_inventory()`: serialize the in-memory inventory (the serialization
by `json.dump` is the `serialized` argument) straight into the inventory
file. -/
def save_inventory (fs : AFS) (serialized : String) (o : WriteOutcome) : AFS :=
  directWrite fs INVENTORY_FILE serialized o

end scrape_epstein

/-! ## Item records and the load/merge/store pattern

An item record is a free-form attribute map; `update_item` reloads the full
store from disk, shallow-merges the partial record into the existing record
for the key, and rewrites the store — but only when the key is present. -/

/-- A record: free-form attributes (values kept opaque as strings). -/
abbrev ItemRec := List (String × String)

/-- The item store mapping url → record. -/
abbrev Inventory := List (String × ItemRec)

/-- `existing.update(partial)`: shallow merge, top-level keys of the partial
record replace those of the existing record. -/
def recUpdate (existing partial_ : ItemRec) : ItemRec :=
  dictUpdate existing partial_

/-! ## `analyze_images.py` — store access, migration, idempotent stage -/

namespace analyze_images

def INVENTORY_FILE : String := "inventory.json"

/-- `load_inventory()`: empty when the backing file is absent or `json.load`
fails (`parseInv` is the `json.load` oracle). -/
def load_inventory (parseInv : String → Option Inventory) (fs : AFS) :
    Inventory :=
  match afsGet fs INVENTORY_FILE with
  | none => []
  | some c => (parseInv c).getD []

/-- `update_item(url, data)`: reload the store, and only when `url` is
present, merge `data` into its record and rewrite the whole store
(`dumpInv` is the `json.dump` oracle). -/
def update_item (parseInv : String → Option Inventory)
    (dumpInv : Inventory → String) (fs : AFS) (url : String) (data : ItemRec)
    (o : WriteOutcome) : AFS :=
  let inv := load_inventory parseInv fs
  match dictGet inv url with
  | some r => directWrite fs INVENTORY_FILE (dumpInv (dictSet inv url (recUpdate r data))) o
  | none => fs

/-- One iteration of the image loop of `process_directory`: derive the
canonical per-image artifact paths, migrate the legacy flat sidecars
(`<image>.json` / `<image>.txt`), then skip when the canonical analysis
exists and overwrite is off, else run the work function.  The work function
(`analyze_image` plus the tolerant JSON salvage and the artifact write,
lines 147–242 — an external inference call) is the `work` oracle; its `Bool`
result is whether a canonical `analysis.json` was successfully saved
(`analyzed_count` increment).  `os.makedirs(target_dir)` only creates a
directory, which the content store does not track. -/
def analyze_step (work : String → AFS → AFS × Bool) (overwrite : Bool)
    (images_dir img_name : String) (fs : AFS) : AFS × Bool :=
  let img_path := pathJoin images_dir img_name
  let target_dir := splitextRoot img_path
  let json_path := pathJoin target_dir "analysis.json"
  let txt_path := pathJoin target_dir "analysis.txt"
  let old_json_path := img_path ++ ".json"
  let old_txt_path := img_path ++ ".txt"
  let fs1 := if (afsGet fs old_json_path).isSome then
               if (afsGet fs json_path).isNone then afsRename fs old_json_path json_path
               else fs
             else fs
  let fs2 := if (afsGet fs1 old_txt_path).isSome then
               if (afsGet fs1 txt_path).isNone then afsRename fs1 old_txt_path txt_path
               else fs1
             else fs1
  if (afsGet fs2 json_path).isSome ∧ ¬ overwrite then (fs2, false)
  else work img_path fs2

/-- `process_directory(url, meta, overwrite)`: locate the extraction dir
(falling back to `<dir of local_path>/<stem>`), list the image files, run
`analyze_step` over each, and merge an `image_analysis_status` of
`"partial"`/`"done"` into the store record only when at least one image was
newly analyzed.  `existsDir`/`listdir` are the directory oracles. -/
def process_directory (existsDir : String → Bool) (listdir : String → List String)
    (work : String → AFS → AFS × Bool) (parseInv : String → Option Inventory)
    (dumpInv : Inventory → String) (overwrite : Bool) (url : String)
    (meta : ItemRec) (fs : AFS) : AFS :=
  let extraction_dir :=
    match dictGet meta "extraction_dir" with
    | some d => if d = "" ∨ ¬ existsDir d then
                  match dictGet meta "local_path" with
                  | some lp => some (pathJoin (dirname lp) (compStem (basename lp)))
                  | none => some d
                else some d
    | none =>
        match dictGet meta "local_path" with
        | some lp => some (pathJoin (dirname lp) (compStem (basename lp)))
        | none => none
  match extraction_dir with
  | none => fs
  | some ed =>
    if ed = "" ∨ ¬ existsDir ed then fs
    else
      let images_dir := pathJoin ed "images"
      if ¬ existsDir images_dir then fs
      else
        let images := (listdir images_dir).filter (fun f =>
          strEndsWith (strLower f) ".png" || strEndsWith (strLower f) ".jpg" ||
            strEndsWith (strLower f) ".jpeg")
        if images.isEmpty then fs
        else
          let run := images.foldl
            (fun (acc : AFS × Nat) img =>
              ((analyze_step work overwrite images_dir img acc.1).1,
                acc.2 + (if (analyze_step work overwrite images_dir img acc.1).2
                  then 1 else 0)))
            (fs, 0)
          if run.2 > 0 then
            let meta' := dictSet meta "image_analysis_status"
              (if run.2 < images.length then "partial" else "done")
            update_item parseInv dumpInv run.1 url meta' .ok
          else run.1

end analyze_images

/-! ## `classify_files.py` — `update_item` (same pattern, different path) -/

namespace classify_files

def INVENTORY_FILE : String := "epstein_files/inventory.json"

/-- `load_inventory()` of `classify_files.py`. -/
def load_inventory (parseInv : String → Option Inventory) (fs : AFS) :
    Inventory :=
  match afsGet fs INVENTORY_FILE with
  | none => []
  | some c => (parseInv c).getD []

/-- `update_item(url, data)` of `classify_files.py`: load, update one item
when present, save. -/
def update_item (parseInv : String → Option Inventory)
    (dumpInv : Inventory → String) (fs : AFS) (url : String) (data : ItemRec)
    (o : WriteOutcome) : AFS :=
  let inv := load_inventory parseInv fs
  match dictGet inv url with
  | some r => directWrite fs INVENTORY_FILE (dumpInv (dictSet inv url (recUpdate r data))) o
  | none => fs

end classify_files

/-! ## `detect_faces.py` — idempotent face-detection stage -/

namespace detect_faces

/-- `process_image_directory(target_dir, app, overwrite)`: require the
canonical `analysis.json`, read its `has_faces` flag (`hasFacesOf` is the
`json.load`-and-`.get("has_faces", False)` oracle; `none` models a raised
read/parse error), then treat a present `faces.json` as already done unless
overwriting; `detectWork` is the remaining external work (locating the
source image, `cv2.imread`, `app.get`, and the `faces.json` write,
lines 88–142). -/
def process_image_directory (hasFacesOf : String → Option Bool)
    (detectWork : String → AFS → AFS) (overwrite : Bool) (target_dir : String)
    (fs : AFS) : AFS :=
  let analysis_path := pathJoin target_dir "analysis.json"
  let faces_path := pathJoin target_dir "faces.json"
  match afsGet fs analysis_path with
  | none => fs
  | some content =>
    match hasFacesOf content with
    | none => fs
    | some false => fs
    | some true =>
      if (afsGet fs faces_path).isSome ∧ ¬ overwrite then fs
      else detectWork target_dir fs

end detect_faces

/-! ## `repair_inventory.py` — backup and bounded JSON salvage -/

namespace repair_inventory

def INVENTORY_FILE : String := "inventory.json"

def BACKUP_FILE : String := "inventory.json.corrupted_bak"

/-- Result of `json.loads` as the repair tool distinguishes it: success, a
`JSONDecodeError` whose message contains "Extra data" (at character position
`pos`), or any other `JSONDecodeError` at `pos`. -/
inductive ParseRes (V : Type) where
  | ok (v : V)
  | errExtra (pos : Nat)
  | errOther (pos : Nat)
deriving DecidableEq, Repr

/-- `s.rfind(',')`: character index of the last comma, if any. -/
def rfindComma (s : String) : Option Nat :=
  (s.data.reverse.findIdx? (fun c => c = ',')).map
    (fun i => s.data.length - 1 - i)

/-- Lines 58–72 of `repair()`: truncate the valid part at its last comma,
close the object, and rewrite the store when that parses. -/
def repairFallback {V : Type} (parse : String → ParseRes V) (dump : V → String)
    (fs : AFS) (content : String) (pos : Nat) : AFS :=
  let valid_part := String.mk (content.data.take pos)
  match rfindComma valid_part with
  | none => fs
  | some last_comma =>
    let repaired := String.mk (valid_part.data.take last_comma) ++ "\n\x7d"
    match parse repaired with
    | .ok d => afsSet fs INVENTORY_FILE (dump d)
    | _ => fs

/-- `repair()`: no-op without a store file; copy the store to the backup
path only when no backup exists yet; return when the content parses; on an
"Extra data" error truncate at the error position and rewrite when the
truncation parses, otherwise (and on any other error) fall back to the
last-comma salvage.  `parse`/`dump` are the `json.loads`/`json.dump`
oracles over an abstract value type `V`. -/
def repair {V : Type} (parse : String → ParseRes V) (dump : V → String)
    (fs : AFS) : AFS :=
  match afsGet fs INVENTORY_FILE with
  | none => fs
  | some content =>
    let fs1 := if (afsGet fs BACKUP_FILE).isNone then afsSet fs BACKUP_FILE content
               else fs
    match parse content with
    | .ok _ => fs1
    | .errExtra pos =>
      let repaired := String.mk (content.data.take pos)
      (match parse repaired with
       | .ok d => afsSet fs1 INVENTORY_FILE (dump d)
       | _ => repairFallback parse dump fs1 content pos)
    | .errOther pos => repairFallback parse dump fs1 content pos

end repair_inventory

/-! ## `ingest_to_firebase.py` — sync state, staleness, batched publish

The remote store and the filesystem are oracles: `upload` is `safe_upload`
(`none` models a missing file or a failed upload), `commitOk n` is whether
the `n`-th `batch.commit()` call of a pass succeeds — a failed commit raises,
which aborts the pass (the model's `aborted` flag; every later step is
skipped, as the exception propagates to `main`'s `finally`).  Modification
times are naturals.  `batch.set(ref, data, merge=True)` calls are recorded in
order in `staged`; the batches whose commit succeeded are flattened into
`committed`. -/

namespace ingest_to_firebase

def STATE_FILE : String := "epstein_files/ingest_state.json"

/-- The parsed shape of `ingest_state.json`: three optional entity-kind
partitions (a hand-edited or older file may lack keys). -/
structure RawSync where
  documents : Option (List (String × Nat)) := none
  images : Option (List (String × Nat)) := none
  faces : Option (List (String × Nat)) := none
deriving DecidableEq, Repr

/-- `load_state()`: empty partitions when the file is absent or `json.load`
raises; otherwise the parsed state with the `faces` key ensured. -/
def load_state (parseSync : String → Option RawSync) (fs : AFS) : RawSync :=
  match afsGet fs STATE_FILE with
  | some content =>
    match parseSync content with
    | some st => { st with faces := some (st.faces.getD []) }
    | none => ⟨some [], some [], some []⟩
  | none => ⟨some [], some [], some []⟩

/-- `save_state(state)`: serialize straight into the state file (failures are
caught and only logged). -/
def save_state (fs : AFS) (serialized : String) (o : WriteOutcome) : AFS :=
  directWrite fs STATE_FILE serialized o

/-- A face record of a `faces.json` artifact, as `ingest_faces` reads it
(numeric payloads kept as integers; their arithmetic is never used). -/
structure FaceRec where
  embedding : Option (List Int) := none
  kps : Option (List (List Int)) := none
  bbox : Option (List Int) := none
  det_score : Option Int := none
deriving DecidableEq, Repr

/-- The filesystem and remote-store oracles of a publish pass.  `readJson p`
is `json.load(open(p))` (`none` = raised), with the parsed object kept
opaque; `readFaces` is the same for `faces.json` artifacts; `upload` is
`safe_upload(local, dest)`. -/
structure IngestFS where
  exists_ : String → Bool
  mtime : String → Nat
  listdir : String → List String
  isdir : String → Bool
  readJson : String → Option String
  readFaces : String → Option (List FaceRec)
  upload : String → String → Option String

/-- `get_max_mtime(paths)`: running maximum of the modification times of the
paths that exist, starting from 0. -/
def get_max_mtime (fs : IngestFS) (paths : List String) : Nat :=
  paths.foldl
    (fun acc p =>
      if fs.exists_ p then (if fs.mtime p > acc then fs.mtime p else acc)
      else acc) 0

/-- The freshness skip test `not force and current_mtime <= last_mtime`
shared by all three passes. -/
def skip_fresh (force : Bool) (current last : Nat) : Bool :=
  !force && decide (current ≤ last)

/-- An inventory entry's metadata, as the publish passes read it. -/
structure Meta where
  local_path : Option String := none
  id : Option String := none
  link_text : Option String := none
  source_page : Option String := none
deriving DecidableEq, Repr

/-! ### `ingest_documents` -/

def ocrContentNames : List String := ["content.txt", "content.md", "ocr.txt", "ocr.md"]

/-- `s.startswith(pre)`. -/
def strStartsWith (s pre : String) : Bool :=
  pre.data.isPrefixOf s.data

/-- A `documents`-collection record (`ingested_at`, a server-side timestamp
sentinel identical on every record, is not modelled). -/
structure DocEntity where
  title : String
  url : String
  source_page : Option String
  preview_medium : String
  preview_thumb : String
  filename : String
  content : List (String × String)
  ocr : List (String × String)
  info : Option String
deriving DecidableEq, Repr

/-- The mutable state of the `ingest_documents` pass. -/
structure DocPass where
  batch : List (String × DocEntity) := []
  batch_count : Nat := 0
  doc_state : List (String × Nat)
  pending : List (String × Nat) := []
  committed : List (String × DocEntity) := []
  staged : List (String × DocEntity) := []
  uploads : Nat := 0
  commits : Nat := 0
  count : Nat := 0
  skipped : Nat := 0
  aborted : Bool := false
deriving DecidableEq, Repr

/-- A document `batch.commit()`: on success the batch is flushed and the
pending fingerprints are merged into `doc_state`; on failure the exception
aborts the pass with nothing advanced. -/
def docCommit (commitOk : Nat → Bool) (st : DocPass) : DocPass :=
  if commitOk st.commits then
    { st with commits := st.commits + 1,
              committed := st.committed ++ st.batch,
              batch := [], batch_count := 0,
              doc_state := dictUpdate st.doc_state st.pending,
              pending := [] }
  else { st with commits := st.commits + 1, aborted := true }

/-- The `content.txt`/`content.md`/`ocr.txt`/`ocr.md` upload loop of
`ingest_documents` (lines 184–201): builds the `content` and `ocr` URL maps
and counts the `safe_upload` calls made. -/
def doc_text_uploads (fs : IngestFS) (output_dir doc_id : String) :
    List (String × String) × List (String × String) × Nat :=
  ocrContentNames.foldl
    (fun (acc : List (String × String) × List (String × String) × Nat) name =>
      let local_f := pathJoin output_dir name
      if fs.exists_ local_f then
        let storage_f := "v1/documents/" ++ doc_id ++ "/" ++ name
        match fs.upload local_f storage_f with
        | some u =>
          let key := if strEndsWith name ".md" then "markdown_url" else "text_url"
          if strStartsWith name "content" then
            (dictSet acc.1 key u, acc.2.1, acc.2.2 + 1)
          else if strStartsWith name "ocr" then
            (acc.1, dictSet acc.2.1 key u, acc.2.2 + 1)
          else (acc.1, acc.2.1, acc.2.2 + 1)
        | none => (acc.1, acc.2.1, acc.2.2 + 1)
      else acc)
    ([], [], 0)

/-- One iteration of the inventory loop of `ingest_documents`. -/
def process_document (fs : IngestFS) (commitOk : Nat → Bool) (force : Bool)
    (st : DocPass) (entry : String × Meta) : DocPass :=
  if st.aborted then st else
  let url := entry.1
  let meta := entry.2
  if pyFalsy meta.local_path then st else
  let local_path := meta.local_path.getD ""
  if ¬ strEndsWith (strLower local_path) ".pdf" then st else
  let file_stem := compStem (basename local_path)
  let doc_id := pyOr meta.id file_stem
  let file_dir := dirname local_path
  let output_dir := pathJoin file_dir file_stem
  let medium_path := pathJoin output_dir "medium.avif"
  let thumb_path := pathJoin output_dir "thumb.avif"
  if ¬ fs.exists_ medium_path then st else
  let info_path := pathJoin output_dir "info.json"
  let check_paths := [local_path, medium_path, thumb_path, info_path] ++
    ocrContentNames.map (fun n => pathJoin output_dir n)
  let current_mtime := get_max_mtime fs check_paths
  let last_mtime := dictGetD st.doc_state doc_id 0
  if skip_fresh force current_mtime last_mtime then
    { st with skipped := st.skipped + 1 }
  else
  let storage_path_m := "v1/documents/" ++ doc_id ++ "/medium.avif"
  let storage_path_t := "v1/documents/" ++ doc_id ++ "/thumb.avif"
  if ¬ fs.exists_ thumb_path then st else
  let url_m := fs.upload medium_path storage_path_m
  let url_t := fs.upload thumb_path storage_path_t
  let maps := doc_text_uploads fs output_dir doc_id
  let st := { st with uploads := st.uploads + 2 + maps.2.2 }
  match url_m, url_t with
  | some um, some ut =>
    let info_data := if fs.exists_ info_path then fs.readJson info_path else none
    let doc_data : DocEntity :=
      { title := pyOr meta.link_text file_stem
        url := url
        source_page := meta.source_page
        preview_medium := um
        preview_thumb := ut
        filename := basename local_path
        content := maps.1
        ocr := maps.2.1
        info := info_data }
    let st := { st with batch := st.batch ++ [(doc_id, doc_data)],
                        staged := st.staged ++ [(doc_id, doc_data)],
                        batch_count := st.batch_count + 1,
                        count := st.count + 1,
                        pending := dictSet st.pending doc_id current_mtime }
    if st.batch_count ≥ 10 then docCommit commitOk st else st
  | _, _ => st

/-- `ingest_documents(db, inventory, state, force)`. -/
def ingest_documents (fs : IngestFS) (commitOk : Nat → Bool)
    (inventory : List (String × Meta)) (doc_state₀ : List (String × Nat))
    (force : Bool) : DocPass :=
  let st := inventory.foldl (process_document fs commitOk force)
    { doc_state := doc_state₀ }
  if st.aborted then st
  else if st.batch_count > 0 then docCommit commitOk st else st

/-! ### `ingest_images` -/

/-- An `images`-collection record (`eval_`/`analysis` hold the opaque parsed
artifact payloads; `ingested_at` is not modelled). -/
structure ImgEntity where
  unique_uri : String
  parent_doc_id : String
  parent_doc_url : String
  source_page_url : Option String
  page_num : Option Nat
  preview_medium : String
  preview_thumb : String
  image_name : String
  eval_ : String
  ocr : List (String × String)
  analysis : Option String
deriving DecidableEq, Repr

/-- The mutable state of the `ingest_images` pass. -/
structure ImgPass where
  batch : List (String × ImgEntity) := []
  batch_count : Nat := 0
  img_state : List (String × Nat)
  pending : List (String × Nat) := []
  committed : List (String × ImgEntity) := []
  staged : List (String × ImgEntity) := []
  uploads : Nat := 0
  commits : Nat := 0
  count : Nat := 0
  skipped : Nat := 0
  aborted : Bool := false
deriving DecidableEq, Repr

/-- An image `batch.commit()` with its follow-up bookkeeping. -/
def imgCommit (commitOk : Nat → Bool) (st : ImgPass) : ImgPass :=
  if commitOk st.commits then
    { st with commits := st.commits + 1,
              committed := st.committed ++ st.batch,
              batch := [], batch_count := 0,
              img_state := dictUpdate st.img_state st.pending,
              pending := [] }
  else { st with commits := st.commits + 1, aborted := true }

/-- The `ocr.txt`/`ocr.md` upload loop of `ingest_images` (lines 336–345):
builds the image's `ocr` URL map and counts the `safe_upload` calls made. -/
def img_ocr_uploads (fs : IngestFS) (img_dir doc_id img_name : String) :
    List (String × String) × Nat :=
  (["ocr.txt", "ocr.md"]).foldl
    (fun (acc : List (String × String) × Nat) name =>
      let local_f := pathJoin img_dir name
      if fs.exists_ local_f then
        let storage_f := "v1/images/" ++ doc_id ++ "/" ++ img_name ++ "/" ++ name
        match fs.upload local_f storage_f with
        | some u =>
          (dictSet acc.1 (if strEndsWith name ".md" then "markdown_url" else "text_url") u,
            acc.2 + 1)
        | none => (acc.1, acc.2 + 1)
      else acc)
    ([], 0)

/-- One iteration of the extracted-image loop of `ingest_images`. -/
def process_image (fs : IngestFS) (commitOk : Nat → Bool) (force : Bool)
    (url : String) (source_page : Option String) (doc_id images_root : String)
    (st : ImgPass) (img_name : String) : ImgPass :=
  if st.aborted then st else
  let img_dir := pathJoin images_root img_name
  if ¬ fs.isdir img_dir then st else
  let eval_path := pathJoin img_dir "eval.json"
  if ¬ fs.exists_ eval_path then st else
  match fs.readJson eval_path with
  | none => st
  | some eval_data =>
    let medium_path := pathJoin img_dir "medium.avif"
    let thumb_path := pathJoin img_dir "thumb.avif"
    let analysis_path := pathJoin img_dir "analysis.json"
    if ¬ fs.exists_ medium_path then st else
    let check_paths := [medium_path, thumb_path, analysis_path, eval_path,
      pathJoin img_dir "ocr.txt", pathJoin img_dir "ocr.md"]
    let current_mtime := get_max_mtime fs check_paths
    let db_id := doc_id ++ "_" ++ img_name
    let last_mtime := dictGetD st.img_state db_id 0
    if skip_fresh force current_mtime last_mtime then
      { st with skipped := st.skipped + 1 }
    else
    let storage_path_m := "v1/images/" ++ doc_id ++ "/" ++ img_name ++ "/medium.avif"
    let storage_path_t := "v1/images/" ++ doc_id ++ "/" ++ img_name ++ "/thumb.avif"
    if ¬ fs.exists_ thumb_path then st else
    let url_m := fs.upload medium_path storage_path_m
    let url_t := fs.upload thumb_path storage_path_t
    let ocrRun := img_ocr_uploads fs img_dir doc_id img_name
    let analysis_data := if fs.exists_ analysis_path then fs.readJson analysis_path else none
    let st := { st with uploads := st.uploads + 2 + ocrRun.2 }
    match url_m, url_t with
    | some um, some ut =>
      let img_data : ImgEntity :=
        { unique_uri := url ++ "#" ++ img_name
          parent_doc_id := doc_id
          parent_doc_url := url
          source_page_url := source_page
          page_num := parse_page_num img_name
          preview_medium := um
          preview_thumb := ut
          image_name := img_name
          eval_ := eval_data
          ocr := ocrRun.1
          analysis := analysis_data }
      let st := { st with batch := st.batch ++ [(db_id, img_data)],
                          staged := st.staged ++ [(db_id, img_data)],
                          batch_count := st.batch_count + 1,
                          count := st.count + 1,
                          pending := dictSet st.pending db_id current_mtime }
      if st.batch_count ≥ 10 then imgCommit commitOk st else st
    | _, _ => st

/-- One iteration of the inventory loop of `ingest_images`. -/
def process_images_item (fs : IngestFS) (commitOk : Nat → Bool) (force : Bool)
    (st : ImgPass) (entry : String × Meta) : ImgPass :=
  if st.aborted then st else
  let url := entry.1
  let meta := entry.2
  if pyFalsy meta.local_path then st else
  let local_path := meta.local_path.getD ""
  if ¬ strEndsWith (strLower local_path) ".pdf" then st else
  let file_stem := compStem (basename local_path)
  let file_dir := dirname local_path
  let images_root := pathJoin (pathJoin file_dir file_stem) "images"
  if ¬ fs.exists_ images_root then st else
  let doc_id := pyOr meta.id file_stem
  (fs.listdir images_root).foldl
    (process_image fs commitOk force url meta.source_page doc_id images_root) st

/-- `ingest_images(db, inventory, state, force)`. -/
def ingest_images (fs : IngestFS) (commitOk : Nat → Bool)
    (inventory : List (String × Meta)) (img_state₀ : List (String × Nat))
    (force : Bool) : ImgPass :=
  let st := inventory.foldl (process_images_item fs commitOk force)
    { img_state := img_state₀ }
  if st.aborted then st
  else if st.batch_count > 0 then imgCommit commitOk st else st

/-! ### `ingest_faces` -/

/-- A landmark keypoint with named fields, as stored for Firestore. -/
structure Keypoint where
  x : Int
  y : Int
deriving DecidableEq, Repr

/-- The stored `kps` field: the raw value when the nested-list conversion
does not fire (a missing or empty `kps`), or the flattened list. -/
inductive KpsStored where
  | asIs (v : Option (List (List Int)))
  | flat (l : List Keypoint)
deriving DecidableEq, Repr

/-- Lines 481–484: `if kps and isinstance(kps, list): kps = [{'x': p[0],
'y': p[1]} for p in kps if len(p) >= 2]`. -/
def convert_kps (v : Option (List (List Int))) : KpsStored :=
  match v with
  | some l =>
    if l.isEmpty then .asIs (some l)
    else .flat (l.filterMap (fun p =>
      match p with
      | x :: y :: _ => some ⟨x, y⟩
      | _ => none))
  | none => .asIs none

/-- The remote store's native vector type wrapping a feature vector. -/
structure FireVector where
  v : List Int
deriving DecidableEq, Repr

/-- A `faces`-collection record (`ingested_at` not modelled). -/
structure FaceDoc where
  parent_image_id : String
  parent_doc_id : String
  bbox : Option (List Int)
  det_score : Option Int
  kps : KpsStored
  embedding : FireVector
  image_name : String
  doc_title : String
  page_num : Option Nat
deriving DecidableEq, Repr

/-- The mutable state of the `ingest_faces` pass.  `vectorSkipReported` is
the "Ingesting Faces (SKIPPED due to missing Vector class)" message. -/
structure FacePass where
  batch : List (String × FaceDoc) := []
  batch_count : Nat := 0
  face_state : List (String × Nat)
  pending : List (String × Nat) := []
  committed : List (String × FaceDoc) := []
  staged : List (String × FaceDoc) := []
  commits : Nat := 0
  count : Nat := 0
  skipped : Nat := 0
  aborted : Bool := false
  vectorSkipReported : Bool := false
deriving DecidableEq, Repr

/-- A face `batch.commit()`: unlike the other passes, the mid-pass commits
do not touch `face_state` — pending fingerprints are merged only once at the
end of the pass. -/
def faceCommit (commitOk : Nat → Bool) (st : FacePass) : FacePass :=
  if commitOk st.commits then
    { st with commits := st.commits + 1,
              committed := st.committed ++ st.batch,
              batch := [], batch_count := 0 }
  else { st with commits := st.commits + 1, aborted := true }

/-- One iteration of the `enumerate(faces_data)` loop: skip a face with a
missing or empty embedding, otherwise stage a `FaceDoc` with id
`{image_db_id}_{i}` and commit when the batch reaches 10. -/
def process_face (commitOk : Nat → Bool) (image_db_id doc_id img_name doc_title : String)
    (page_num : Option Nat) (st : FacePass) (iface : Nat × FaceRec) : FacePass :=
  if st.aborted then st else
  let i := iface.1
  let face := iface.2
  let face_id := image_db_id ++ "_" ++ toString i
  match face.embedding with
  | none => st
  | some e =>
    if e.isEmpty then st else
    let kps := convert_kps face.kps
    let face_doc : FaceDoc :=
      { parent_image_id := image_db_id
        parent_doc_id := doc_id
        bbox := face.bbox
        det_score := face.det_score
        kps := kps
        embedding := ⟨e⟩
        image_name := img_name
        doc_title := doc_title
        page_num := page_num }
    let st := { st with batch := st.batch ++ [(face_id, face_doc)],
                        staged := st.staged ++ [(face_id, face_doc)],
                        batch_count := st.batch_count + 1,
                        count := st.count + 1 }
    if st.batch_count ≥ 10 then faceCommit commitOk st else st

/-- One iteration of the extracted-image loop of `ingest_faces`: freshness
is tracked per `faces.json` (key `{doc_id}_{img_name}`), the pending
fingerprint is recorded after the face loop, and a full batch left by the
loop is committed. -/
def process_faces_image (fs : IngestFS) (commitOk : Nat → Bool) (force : Bool)
    (doc_id doc_title images_root : String) (st : FacePass)
    (img_name : String) : FacePass :=
  if st.aborted then st else
  let img_dir := pathJoin images_root img_name
  if ¬ fs.isdir img_dir then st else
  let faces_path := pathJoin img_dir "faces.json"
  if ¬ fs.exists_ faces_path then st else
  let current_mtime := fs.mtime faces_path
  let sync_key := doc_id ++ "_" ++ img_name
  let last_mtime := dictGetD st.face_state sync_key 0
  if skip_fresh force current_mtime last_mtime then
    { st with skipped := st.skipped + 1 }
  else
  match fs.readFaces faces_path with
  | none => st
  | some faces_data =>
    if faces_data.isEmpty then st else
    let image_db_id := doc_id ++ "_" ++ img_name
    let st1 := faces_data.enum.foldl
      (process_face commitOk image_db_id doc_id img_name doc_title
        (parse_page_num img_name)) st
    if st1.aborted then st1 else
    let st2 := { st1 with pending := dictSet st1.pending sync_key current_mtime }
    if st2.batch_count ≥ 10 then faceCommit commitOk st2 else st2

/-- One iteration of the inventory loop of `ingest_faces`. -/
def process_faces_item (fs : IngestFS) (commitOk : Nat → Bool) (force : Bool)
    (st : FacePass) (entry : String × Meta) : FacePass :=
  if st.aborted then st else
  let meta := entry.2
  if pyFalsy meta.local_path then st else
  let local_path := meta.local_path.getD ""
  if ¬ strEndsWith (strLower local_path) ".pdf" then st else
  let file_stem := compStem (basename local_path)
  let file_dir := dirname local_path
  let images_root := pathJoin (pathJoin file_dir file_stem) "images"
  if ¬ fs.exists_ images_root then st else
  let doc_id := pyOr meta.id file_stem
  let doc_title := pyOr meta.link_text file_stem
  (fs.listdir images_root).foldl
    (process_faces_image fs commitOk force doc_id doc_title images_root) st

/-- `ingest_faces(db, inventory, state, force)`: with the `Vector` class
unavailable the whole pass is skipped after printing the skip notice;
otherwise the pending fingerprints are merged into `face_state` only after
the final flush succeeds. -/
def ingest_faces (vectorAvailable : Bool) (fs : IngestFS) (commitOk : Nat → Bool)
    (inventory : List (String × Meta)) (face_state₀ : List (String × Nat))
    (force : Bool) : FacePass :=
  if ¬ vectorAvailable then
    { face_state := face_state₀, vectorSkipReported := true }
  else
    let st := inventory.foldl (process_faces_item fs commitOk force)
      { face_state := face_state₀ }
    if st.aborted then st
    else
      let st1 := if st.batch_count > 0 then faceCommit commitOk st else st
      if st1.aborted then st1
      else { st1 with face_state := dictUpdate st1.face_state st1.pending }

end ingest_to_firebase

/-! ## Staleness tracker: fingerprint and `IsStale` (claim C2) -/

namespace ingest_to_firebase

/-- The spec's `Fingerprint(paths)`: the maximum modification time across
the paths that exist, non-existent paths ignored (stated from the spec's
words, to be compared with the code's `get_max_mtime`). -/
def FingerprintSpec (fs : IngestFS) (paths : List String) : Nat :=
  ((paths.filter fs.exists_).map fs.mtime).foldl max 0

/-- The spec's `IsStale(entityId, currentFingerprint, syncState)`: true iff
the current fingerprint strictly exceeds the persisted one (0 when the id is
absent) or the force flag is set. -/
def IsStaleSpec (force : Bool) (current : Nat) (syncState : List (String × Nat))
    (entityId : String) : Bool :=
  decide (dictGetD syncState entityId 0 < current) || force

theorem if_gt_eq_max (a m : Nat) : (if m > a then m else a) = max a m := by
  rcases Nat.lt_or_ge a m with h | h
  · rw [if_pos h, Nat.max_eq_right h.le]
  · rw [if_neg (Nat.not_lt.mpr h), Nat.max_eq_left h]

theorem get_max_mtime_foldl_acc (fs : IngestFS) (paths : List String) (acc : Nat) :
    paths.foldl
      (fun a p => if fs.exists_ p then (if fs.mtime p > a then fs.mtime p else a) else a)
      acc = max acc (get_max_mtime fs paths) := by
  induction paths generalizing acc with
  | nil => simp [get_max_mtime]
  | cons p t ih =>
    simp only [get_max_mtime, List.foldl] at *
    rw [ih, ih (if fs.exists_ p then if fs.mtime p > 0 then fs.mtime p else 0 else 0)]
    by_cases h : fs.exists_ p = true
    · simp only [h, if_true, if_gt_eq_max, Nat.max_comm 0 (fs.mtime p), Nat.max_zero,
        Nat.zero_max]
      exact (Nat.max_assoc acc (fs.mtime p) _)
    · simp only [Bool.not_eq_true] at h
      simp [h]

theorem get_max_mtime_cons (fs : IngestFS) (p : String) (t : List String) :
    get_max_mtime fs (p :: t) =
      max (if fs.exists_ p then fs.mtime p else 0) (get_max_mtime fs t) := by
  simp only [get_max_mtime, List.foldl]
  rw [get_max_mtime_foldl_acc]
  by_cases h : fs.exists_ p = true
  · simp [h, if_gt_eq_max, get_max_mtime]
  · simp only [Bool.not_eq_true] at h
    simp [h, get_max_mtime]

theorem foldl_max_acc (l : List Nat) (acc : Nat) :
    l.foldl max acc = max acc (l.foldl max 0) := by
  induction l generalizing acc with
  | nil => simp
  | cons m t ih =>
    simp only [List.foldl]
    rw [ih, ih (max 0 m), Nat.zero_max, Nat.max_assoc]

theorem get_max_mtime_eq_spec (fs : IngestFS) (paths : List String) :
    get_max_mtime fs paths = FingerprintSpec fs paths := by
  induction paths with
  | nil => rfl
  | cons p t ih =>
    rw [get_max_mtime_cons, ih]
    by_cases h : fs.exists_ p = true
    · simp only [FingerprintSpec, List.filter, h, List.map, List.foldl]
      rw [foldl_max_acc (List.map fs.mtime (List.filter fs.exists_ t)) (0 ⊔ fs.mtime p)]
      simp
    · simp only [Bool.not_eq_true] at h
      simp [FingerprintSpec, List.filter, h]

theorem mtime_le_get_max_mtime (fs : IngestFS) (paths : List String) (p : String)
    (hmem : p ∈ paths) (hex : fs.exists_ p = true) :
    fs.mtime p ≤ get_max_mtime fs paths := by
  induction paths with
  | nil => cases hmem
  | cons q t ih =>
    rw [get_max_mtime_cons]
    rcases List.mem_cons.mp hmem with h | h
    · subst h
      simp [hex, Nat.le_max_left]
    · exact le_trans (ih h) (Nat.le_max_right _ _)

/-- C2: the freshness fingerprint of an entity is the maximum modification
time over exactly its dependent paths that exist (non-existent ignored); the
publish passes' skip test marks an entity stale iff the fingerprint strictly
exceeds the persisted last-synced value (0 when absent) or force is set;
an entity whose persisted value equals its fingerprint is not stale, and
touching any one dependent path to an instant later than the fingerprint
makes it stale on the next check. -/
theorem claim_C2_staleness :
    (∀ (fs : IngestFS) (paths : List String),
        get_max_mtime fs paths = FingerprintSpec fs paths) ∧
    (∀ (force : Bool) (current : Nat) (syncState : List (String × Nat)) (id : String),
        skip_fresh force current (dictGetD syncState id 0) =
          !(IsStaleSpec force current syncState id)) ∧
    (∀ (current : Nat) (syncState : List (String × Nat)) (id : String),
        dictGetD syncState id 0 = current →
        IsStaleSpec false current syncState id = false) ∧
    (∀ (fs fs' : IngestFS) (paths : List String) (p : String) (t : Nat)
        (syncState : List (String × Nat)) (id : String),
        p ∈ paths →
        fs'.exists_ p = true → fs'.mtime p = t →
        (∀ q, q ≠ p → fs'.exists_ q = fs.exists_ q ∧ fs'.mtime q = fs.mtime q) →
        dictGetD syncState id 0 = get_max_mtime fs paths →
        get_max_mtime fs paths < t →
        IsStaleSpec false (get_max_mtime fs' paths) syncState id = true) := by
  refine ⟨get_max_mtime_eq_spec, ?_, ?_, ?_⟩
  · intro force current syncState id
    cases force <;>
      simp [skip_fresh, IsStaleSpec, Nat.not_lt, decide_eq_true_eq, Bool.not_or,
        ← decide_not]
  · intro current syncState id h
    simp [IsStaleSpec, h]
  · intro fs fs' paths p t syncState id hmem hex hmt _hframe hsync hlt
    have h1 : t ≤ get_max_mtime fs' paths := hmt ▸ mtime_le_get_max_mtime fs' paths p hmem hex
    simp only [IsStaleSpec, Bool.or_false, decide_eq_true_eq]
    exact lt_of_lt_of_le (hsync ▸ hlt) h1

/-- A tiny concrete filesystem for exercising the staleness tracker. -/
def fsC2 : IngestFS where
  exists_ := fun _ => true
  mtime := fun p => if p = "a" then 5 else 3
  listdir := fun _ => []
  isdir := fun _ => false
  readJson := fun _ => none
  readFaces := fun _ => none
  upload := fun _ _ => none

/-- `fsC2` after touching path `a` to a later instant. -/
def fsC2' : IngestFS := { fsC2 with mtime := fun p => if p = "a" then 9 else 3 }

/-- Witness for C2 at a concrete filesystem: touching `a` from 5 to 9 makes
the entity stale; an unchanged fingerprint is fresh. -/
theorem claim_C2_staleness_witness :
    IsStaleSpec false (get_max_mtime fsC2' ["a", "b"]) [("e", 5)] "e" = true ∧
    IsStaleSpec false 5 [("e", 5)] "e" = false :=
  ⟨claim_C2_staleness.2.2.2 fsC2 fsC2' ["a", "b"] "a" 9 [("e", 5)] "e"
      (by decide) (by decide) (by decide)
      (fun q hq => ⟨rfl, by simp [fsC2', fsC2, if_neg hq]⟩)
      (by decide) (by decide),
    claim_C2_staleness.2.2.1 5 [("e", 5)] "e" (by decide)⟩

end ingest_to_firebase

/-! ## Lemmas on the file store -/

theorem afsGet_afsSet_self (fs : AFS) (p v : String) :
    afsGet (afsSet fs p v) p = some v :=
  dictGet_dictSet_self fs p v

theorem afsGet_afsSet_ne (fs : AFS) (p q v : String) (h : q ≠ p) :
    afsGet (afsSet fs p v) q = afsGet fs q :=
  dictGet_dictSet_ne fs p q v h

theorem afsGet_afsDel_self (fs : AFS) (p : String) :
    afsGet (afsDel fs p) p = none := by
  induction fs with
  | nil => rfl
  | cons kv t ih =>
    by_cases h : kv.1 = p
    · simpa [afsDel, h] using ih
    · simp only [afsDel, if_neg h]
      simpa [afsGet, dictGet, List.find?, decide_eq_false h] using ih

theorem afsGet_afsDel_ne (fs : AFS) (p q : String) (h : q ≠ p) :
    afsGet (afsDel fs p) q = afsGet fs q := by
  induction fs with
  | nil => rfl
  | cons kv t ih =>
    by_cases hp : kv.1 = p
    · have hq : ¬ kv.1 = q := fun hq => h (hq ▸ hp ▸ rfl)
      simp only [afsDel, if_pos hp]
      rw [ih]
      simp [afsGet, dictGet, List.find?, decide_eq_false hq]
    · simp only [afsDel, if_neg hp]
      by_cases hq : kv.1 = q
      · simp [afsGet, dictGet, List.find?, decide_eq_true hq]
      · simpa [afsGet, dictGet, List.find?, decide_eq_false hq] using ih

theorem afsGet_afsRename_dst (fs : AFS) (src dst c : String)
    (hc : afsGet fs src = some c) :
    afsGet (afsRename fs src dst) dst = some c := by
  simp only [afsRename, hc]
  exact afsGet_afsSet_self _ dst c

theorem afsGet_afsRename_src (fs : AFS) (src dst : String) (h : src ≠ dst)
    (hc : (afsGet fs src).isSome) :
    afsGet (afsRename fs src dst) src = none := by
  rcases Option.isSome_iff_exists.mp hc with ⟨c, hcc⟩
  simp only [afsRename, hcc]
  rw [afsGet_afsSet_ne _ _ _ _ h]
  exact afsGet_afsDel_self fs src

theorem afsGet_afsRename_frame (fs : AFS) (src dst p : String) (h1 : p ≠ src)
    (h2 : p ≠ dst) : afsGet (afsRename fs src dst) p = afsGet fs p := by
  cases hc : afsGet fs src with
  | none => simp [afsRename, hc]
  | some c =>
    simp only [afsRename, hc]
    rw [afsGet_afsSet_ne _ _ _ _ h2, afsGet_afsDel_ne _ _ _ h1]

/-! ## String inequalities from last characters -/

theorem str_ne_of_getLast (s t : String) (cs ct : Char)
    (hs : s.data.getLast? = some cs) (ht : t.data.getLast? = some ct)
    (h : cs ≠ ct) : s ≠ t := by
  intro he
  rw [he, ht] at hs
  exact h (Option.some_injective _ hs).symm

theorem getLast?_strAppend (s suf : String) (h : suf.data ≠ []) :
    (s ++ suf).data.getLast? = suf.data.getLast? := by
  show (s.data ++ suf.data).getLast? = suf.data.getLast?
  exact List.getLast?_append_of_ne_nil _ h

theorem getLast?_pathJoin (a b : String) (h : b.data ≠ []) :
    (pathJoin a b).data.getLast? = b.data.getLast? := by
  unfold pathJoin
  by_cases ha : a = ""
  · simp [ha]
  · simp only [ha, if_false]
    exact getLast?_strAppend _ b h

/-! ## Claim C5: legacy sidecar migration -/

namespace analyze_images

/-- C5: for an extracted image, when the legacy sidecar `<image_path>.json`
exists and the canonical `<image_stem>/analysis.json` does not, one
`analyze_images` pass moves the sidecar to the canonical path (work is not
invoked, every other path untouched); when both exist, the pass changes
nothing — neither file is deleted — and the canonical artifact drives the
skip. -/
theorem claim_C5_migration :
    (∀ (work : String → AFS → AFS × Bool) (images_dir img_name : String)
        (fs : AFS) (c : String)
        (img_path json_path old_json old_txt : String),
      img_path = pathJoin images_dir img_name →
      json_path = pathJoin (splitextRoot img_path) "analysis.json" →
      old_json = img_path ++ ".json" →
      old_txt = img_path ++ ".txt" →
      old_json ≠ json_path →
      afsGet fs old_json = some c →
      afsGet fs json_path = none →
      afsGet fs old_txt = none →
      (analyze_step work false images_dir img_name fs).2 = false ∧
      afsGet (analyze_step work false images_dir img_name fs).1 json_path = some c ∧
      afsGet (analyze_step work false images_dir img_name fs).1 old_json = none ∧
      (∀ p, p ≠ old_json → p ≠ json_path →
        afsGet (analyze_step work false images_dir img_name fs).1 p = afsGet fs p)) ∧
    (∀ (work : String → AFS → AFS × Bool) (images_dir img_name : String)
        (fs : AFS) (c c' : String)
        (img_path json_path old_json old_txt : String),
      img_path = pathJoin images_dir img_name →
      json_path = pathJoin (splitextRoot img_path) "analysis.json" →
      old_json = img_path ++ ".json" →
      old_txt = img_path ++ ".txt" →
      afsGet fs old_json = some c →
      afsGet fs json_path = some c' →
      afsGet fs old_txt = none →
      analyze_step work false images_dir img_name fs = (fs, false)) := by
  constructor
  · intro work images_dir img_name fs c img_path json_path old_json old_txt
      hip hjp1 hoj1 hot1 hne hoj hjp hot
    subst hip; subst hjp1; subst hoj1; subst hot1
    have hot_oj : pathJoin images_dir img_name ++ ".txt" ≠
        pathJoin images_dir img_name ++ ".json" :=
      str_ne_of_getLast _ _ 't' 'n'
        (by rw [getLast?_strAppend _ _ (by decide)]; decide)
        (by rw [getLast?_strAppend _ _ (by decide)]; decide) (by decide)
    have hot_jp : pathJoin images_dir img_name ++ ".txt" ≠
        pathJoin (splitextRoot (pathJoin images_dir img_name)) "analysis.json" :=
      str_ne_of_getLast _ _ 't' 'n'
        (by rw [getLast?_strAppend _ _ (by decide)]; decide)
        (by rw [getLast?_pathJoin _ _ (by decide)]; decide) (by decide)
    have hstep : analyze_step work false images_dir img_name fs =
        (afsRename fs (pathJoin images_dir img_name ++ ".json")
          (pathJoin (splitextRoot (pathJoin images_dir img_name)) "analysis.json"),
         false) := by
      unfold analyze_step
      simp only [hoj, hjp, Option.isSome_some, Option.isNone_none, if_true,
        Bool.not_false]
      rw [afsGet_afsRename_frame _ _ _ _ hot_oj hot_jp, hot]
      simp only [Option.isSome_none, Bool.false_eq_true, if_false,
        afsGet_afsRename_dst fs _ _ c hoj, Option.isSome_some, not_false_iff,
        and_true, if_true]
    refine ⟨by rw [hstep], by rw [hstep]; exact afsGet_afsRename_dst fs _ _ c hoj,
      by rw [hstep]; exact afsGet_afsRename_src fs _ _ hne (by rw [hoj]; rfl), ?_⟩
    intro p hp1 hp2
    rw [hstep]
    exact afsGet_afsRename_frame fs _ _ p hp1 hp2
  · intro work images_dir img_name fs c c' img_path json_path old_json old_txt
      hip hjp1 hoj1 hot1 hoj hjp hot
    subst hip; subst hjp1; subst hoj1; subst hot1
    unfold analyze_step
    simp only [hoj, hjp, hot, Option.isSome_some, Option.isNone_some,
      Option.isSome_none, Bool.false_eq_true, if_false, not_false_iff, and_true,
      if_true, Bool.not_false]

/-- Witness for C5 at a concrete store: one pass migrates the legacy
`d/x.jpg.json` to `d/x/analysis.json`; with both present nothing changes. -/
theorem claim_C5_migration_witness :
    (afsGet (analyze_step (fun _ f => (f, true)) false "d" "x.jpg"
        [("d/x.jpg.json", "LEGACY")]).1 "d/x/analysis.json" = some "LEGACY") ∧
    (afsGet (analyze_step (fun _ f => (f, true)) false "d" "x.jpg"
        [("d/x.jpg.json", "LEGACY")]).1 "d/x.jpg.json" = none) ∧
    (analyze_step (fun _ f => (f, true)) false "d" "x.jpg"
        [("d/x.jpg.json", "LEGACY"), ("d/x/analysis.json", "CANON")] =
      ([("d/x.jpg.json", "LEGACY"), ("d/x/analysis.json", "CANON")], false)) := by
  have h1 := claim_C5_migration.1 (fun _ f => (f, true)) "d" "x.jpg"
    [("d/x.jpg.json", "LEGACY")] "LEGACY" "d/x.jpg" "d/x/analysis.json"
    "d/x.jpg.json" "d/x.jpg.txt" (by decide) (by decide) (by decide) (by decide)
    (by decide) (by decide) (by decide) (by decide)
  have h2 := claim_C5_migration.2 (fun _ f => (f, true)) "d" "x.jpg"
    [("d/x.jpg.json", "LEGACY"), ("d/x/analysis.json", "CANON")] "LEGACY" "CANON"
    "d/x.jpg" "d/x/analysis.json" "d/x.jpg.json" "d/x.jpg.txt"
    (by decide) (by decide) (by decide) (by decide) (by decide) (by decide)
    (by decide)
  exact ⟨h1.2.1, h1.2.2.1, h2⟩

/-! ## Claim C3: idempotent stages, artifact presence as the skip signal -/

/-- A present canonical artifact (and no pending legacy migration) means an
`analyze_images` step is a pure skip, whatever the work function is. -/
theorem analyze_step_skip (work : String → AFS → AFS × Bool)
    (images_dir img_name : String) (fs : AFS)
    (hc : (afsGet fs (pathJoin (splitextRoot (pathJoin images_dir img_name))
      "analysis.json")).isSome)
    (hoj : afsGet fs (pathJoin images_dir img_name ++ ".json") = none)
    (hot : afsGet fs (pathJoin images_dir img_name ++ ".txt") = none) :
    analyze_step work false images_dir img_name fs = (fs, false) := by
  unfold analyze_step
  simp only [hoj, hot, Option.isSome_none, Bool.false_eq_true, if_false, hc,
    not_false_iff, and_true, if_true]

/-- The per-image condition under which an `analyze_images` pass leaves the
store untouched: canonical analysis present, no stray legacy sidecars. -/
def analyzeDone (fs : AFS) (images_dir img : String) : Prop :=
  (afsGet fs (pathJoin (splitextRoot (pathJoin images_dir img))
    "analysis.json")).isSome = true ∧
  afsGet fs (pathJoin images_dir img ++ ".json") = none ∧
  afsGet fs (pathJoin images_dir img ++ ".txt") = none

theorem analyze_fold_noop (work : String → AFS → AFS × Bool)
    (images_dir : String) (imgs : List String) (fs : AFS) (n : Nat)
    (H : ∀ img ∈ imgs, analyzeDone fs images_dir img) :
    imgs.foldl
      (fun (acc : AFS × Nat) img =>
        ((analyze_step work false images_dir img acc.1).1,
          acc.2 + (if (analyze_step work false images_dir img acc.1).2
            then 1 else 0)))
      (fs, n) = (fs, n) := by
  induction imgs generalizing n with
  | nil => rfl
  | cons img t ih =>
    have hd := H img (List.mem_cons_self _ _)
    have hskip := analyze_step_skip work images_dir img fs hd.1 hd.2.1 hd.2.2
    simp only [List.foldl, hskip, if_false, Nat.add_zero]
    exact ih n (fun i hi => H i (List.mem_cons_of_mem _ hi))

theorem process_directory_noop (existsDir : String → Bool)
    (listdir : String → List String) (work : String → AFS → AFS × Bool)
    (parseInv : String → Option Inventory) (dumpInv : Inventory → String)
    (url : String) (meta : ItemRec) (fs : AFS)
    (H : ∀ images_dir img, img ∈ (listdir images_dir).filter (fun f =>
        strEndsWith (strLower f) ".png" || strEndsWith (strLower f) ".jpg" ||
          strEndsWith (strLower f) ".jpeg") →
        analyzeDone fs images_dir img) :
    process_directory existsDir listdir work parseInv dumpInv false url meta fs
      = fs := by
  unfold process_directory
  cases hed : (match dictGet meta "extraction_dir" with
    | some d => if d = "" ∨ ¬ existsDir d = true then
                  match dictGet meta "local_path" with
                  | some lp => some (pathJoin (dirname lp) (compStem (basename lp)))
                  | none => some d
                else some d
    | none =>
        match dictGet meta "local_path" with
        | some lp => some (pathJoin (dirname lp) (compStem (basename lp)))
        | none => none : Option String) with
  | none => rfl
  | some ed =>
    dsimp only
    by_cases h1 : ed = "" ∨ ¬ existsDir ed = true
    · rw [if_pos h1]
    · rw [if_neg h1]
      by_cases h2 : ¬ existsDir (pathJoin ed "images") = true
      · rw [if_pos h2]
      · rw [if_neg h2]
        by_cases h3 : ((listdir (pathJoin ed "images")).filter (fun f =>
            strEndsWith (strLower f) ".png" || strEndsWith (strLower f) ".jpg" ||
              strEndsWith (strLower f) ".jpeg")).isEmpty = true
        · rw [if_pos h3]
        · rw [if_neg h3]
          rw [analyze_fold_noop work (pathJoin ed "images") _ fs 0
            (fun img hi => H (pathJoin ed "images") img hi)]
          simp

/-- C3: with `overwrite=false` a stage treats the presence of the canonical
artifact as already done: the `analyze_images` per-image step is a pure skip
for every work function; a pass whose images all carry their canonical
artifact changes neither artifacts nor the store, so a second identical pass
after such a state is a no-op; `detect_faces` likewise skips a directory
whose `faces.json` exists. -/
theorem claim_C3_idempotency :
    (∀ (work : String → AFS → AFS × Bool) (images_dir img_name : String) (fs : AFS),
      analyzeDone fs images_dir img_name →
      analyze_step work false images_dir img_name fs = (fs, false)) ∧
    (∀ (existsDir : String → Bool) (listdir : String → List String)
        (work : String → AFS → AFS × Bool) (parseInv : String → Option Inventory)
        (dumpInv : Inventory → String) (url : String) (meta : ItemRec) (fs : AFS),
      (∀ images_dir img, img ∈ (listdir images_dir).filter (fun f =>
          strEndsWith (strLower f) ".png" || strEndsWith (strLower f) ".jpg" ||
            strEndsWith (strLower f) ".jpeg") →
          analyzeDone fs images_dir img) →
      process_directory existsDir listdir work parseInv dumpInv false url meta fs
          = fs ∧
      process_directory existsDir listdir work parseInv dumpInv false url meta
          (process_directory existsDir listdir work parseInv dumpInv false url meta fs)
        = process_directory existsDir listdir work parseInv dumpInv false url meta fs) ∧
    (∀ (hasFacesOf : String → Option Bool) (detectWork : String → AFS → AFS)
        (target_dir : String) (fs : AFS),
      (afsGet fs (pathJoin target_dir "faces.json")).isSome = true →
      detect_faces.process_image_directory hasFacesOf detectWork false target_dir fs
        = fs) := by
  refine ⟨fun work images_dir img_name fs hd =>
      analyze_step_skip work images_dir img_name fs hd.1 hd.2.1 hd.2.2,
    fun existsDir listdir work parseInv dumpInv url meta fs H => ?_,
    fun hasFacesOf detectWork target_dir fs hf => ?_⟩
  · have h1 := process_directory_noop existsDir listdir work parseInv dumpInv
      url meta fs H
    exact ⟨h1, by rw [h1, h1]⟩
  · unfold detect_faces.process_image_directory
    dsimp only
    cases ha : afsGet fs (pathJoin target_dir "analysis.json") with
    | none => rfl
    | some content =>
      dsimp only
      cases hasFacesOf content with
      | none => rfl
      | some b =>
        cases b with
        | false => rfl
        | true => exact if_pos (And.intro hf (by decide))

/-- Directory-existence oracle for the C3 witness. -/
def existsDirW : String → Bool := fun d => d = "e/doc" || d = "e/doc/images"

/-- Directory-listing oracle for the C3 witness. -/
def listdirW : String → List String :=
  fun d => if d = "e/doc/images" then ["x.jpg"] else []

/-- Store for the C3 witness: the canonical analysis artifact exists. -/
def fsW : AFS := [("e/doc/images/x/analysis.json", "A")]

/-- Witness for C3 at concrete stores: the analyze step, a full
`process_directory` pass, and the face-detection step are all no-ops when
the canonical artifacts are present. -/
theorem claim_C3_idempotency_witness :
    analyze_step (fun _ f => (f, true)) false "d" "x.jpg"
      [("d/x/analysis.json", "A")] = ([("d/x/analysis.json", "A")], false) ∧
    process_directory existsDirW listdirW (fun _ f => (f, true)) (fun _ => none)
      (fun _ => "") false "u" [("extraction_dir", "e/doc")] fsW = fsW ∧
    detect_faces.process_image_directory (fun _ => some true) (fun _ f => f)
      false "t" [("t/analysis.json", "A"), ("t/faces.json", "F")] =
      [("t/analysis.json", "A"), ("t/faces.json", "F")] := by
  have hH : ∀ images_dir img, img ∈ (listdirW images_dir).filter (fun f =>
      strEndsWith (strLower f) ".png" || strEndsWith (strLower f) ".jpg" ||
        strEndsWith (strLower f) ".jpeg") →
      analyzeDone fsW images_dir img := by
    intro images_dir img hi
    by_cases h : images_dir = "e/doc/images"
    · subst h
      have h1 : listdirW "e/doc/images" = ["x.jpg"] := by decide
      rw [h1] at hi
      have h2 : List.filter (fun f =>
          strEndsWith (strLower f) ".png" || strEndsWith (strLower f) ".jpg" ||
            strEndsWith (strLower f) ".jpeg") ["x.jpg"] = ["x.jpg"] := by decide
      rw [h2] at hi
      have h3 : img = "x.jpg" := List.mem_singleton.mp hi
      subst h3
      refine ⟨by decide, by decide, by decide⟩
    · have hld : listdirW images_dir = [] := by unfold listdirW; rw [if_neg h]
      rw [hld] at hi
      simp [List.filter] at hi
  exact ⟨claim_C3_idempotency.1 (fun _ f => (f, true)) "d" "x.jpg"
      [("d/x/analysis.json", "A")] ⟨by decide, by decide, by decide⟩,
    (claim_C3_idempotency.2.1 existsDirW listdirW (fun _ f => (f, true))
      (fun _ => none) (fun _ => "") "u" [("extraction_dir", "e/doc")] fsW hH).1,
    claim_C3_idempotency.2.2 (fun _ => some true) (fun _ f => f) "t"
      [("t/analysis.json", "A"), ("t/faces.json", "F")] (by decide)⟩

end analyze_images

/-! ## Claim C10: merge-update of an absent key is a no-op -/

/-- C10: for a key absent from the persisted store, `update_item` (in both
`analyze_images.py` and `classify_files.py`) creates no record, does not
rewrite the store file, and leaves the persisted mapping unchanged. -/
theorem claim_C10_absent_key_noop :
    (∀ (parseInv : String → Option Inventory) (dumpInv : Inventory → String)
        (fs : AFS) (url : String) (data : ItemRec) (o : WriteOutcome),
      dictGet (analyze_images.load_inventory parseInv fs) url = none →
      analyze_images.update_item parseInv dumpInv fs url data o = fs ∧
      analyze_images.load_inventory parseInv
          (analyze_images.update_item parseInv dumpInv fs url data o) =
        analyze_images.load_inventory parseInv fs) ∧
    (∀ (parseInv : String → Option Inventory) (dumpInv : Inventory → String)
        (fs : AFS) (url : String) (data : ItemRec) (o : WriteOutcome),
      dictGet (classify_files.load_inventory parseInv fs) url = none →
      classify_files.update_item parseInv dumpInv fs url data o = fs ∧
      classify_files.load_inventory parseInv
          (classify_files.update_item parseInv dumpInv fs url data o) =
        classify_files.load_inventory parseInv fs) := by
  constructor
  · intro parseInv dumpInv fs url data o h
    have he : analyze_images.update_item parseInv dumpInv fs url data o = fs := by
      unfold analyze_images.update_item
      dsimp only
      rw [h]
    exact ⟨he, by rw [he]⟩
  · intro parseInv dumpInv fs url data o h
    have he : classify_files.update_item parseInv dumpInv fs url data o = fs := by
      unfold classify_files.update_item
      dsimp only
      rw [h]
    exact ⟨he, by rw [he]⟩

/-- Witness for C10: updating a missing url leaves both stores untouched. -/
theorem claim_C10_absent_key_noop_witness :
    analyze_images.update_item (fun _ => some [("u", [("k", "v")])]) (fun _ => "D")
      [("inventory.json", "raw")] "w" [("a", "b")] .ok = [("inventory.json", "raw")] ∧
    classify_files.update_item (fun _ => some [("u", [("k", "v")])]) (fun _ => "D")
      [("epstein_files/inventory.json", "raw")] "w" [("a", "b")] .ok =
      [("epstein_files/inventory.json", "raw")] :=
  ⟨(claim_C10_absent_key_noop.1 (fun _ => some [("u", [("k", "v")])]) (fun _ => "D")
      [("inventory.json", "raw")] "w" [("a", "b")] .ok (by decide)).1,
   (claim_C10_absent_key_noop.2 (fun _ => some [("u", [("k", "v")])]) (fun _ => "D")
      [("epstein_files/inventory.json", "raw")] "w" [("a", "b")] .ok (by decide)).1⟩

/-! ## Claim C6: store writes are in place, not atomic-replace (corrected) -/

/-- Counterexample to C6 as stated: an interrupted `save_inventory` write
truncates the store instead of leaving the previous content intact, unlike
the spec's temp-then-rename discipline on the same input. -/
theorem claim_C6_counterexample :
    afsGet (scrape_epstein.save_inventory
        [(scrape_epstein.INVENTORY_FILE, "OLD")] "NEW" (.failAt 0))
      scrape_epstein.INVENTORY_FILE = some "" ∧
    (some "" : Option String) ≠ some "OLD" ∧
    afsGet (atomicReplaceWrite [(scrape_epstein.INVENTORY_FILE, "OLD")]
        scrape_epstein.INVENTORY_FILE "epstein_files/inventory.json.tmp" "NEW"
        (.failAt 0))
      scrape_epstein.INVENTORY_FILE = some "OLD" := by decide

/-- C6 amended: `save_inventory` and `update_item` write the store file in
place with no temporary path — a successful write replaces the content, an
interrupted write leaves a truncated prefix of the new content (not the
previous store), and no other path is touched. -/
theorem claim_C6_write_in_place :
    (∀ (fs : AFS) (c : String),
      afsGet (scrape_epstein.save_inventory fs c .ok)
        scrape_epstein.INVENTORY_FILE = some c) ∧
    (∀ (fs : AFS) (c : String) (k : Nat),
      afsGet (scrape_epstein.save_inventory fs c (.failAt k))
        scrape_epstein.INVENTORY_FILE = some (String.mk (c.data.take k))) ∧
    (∀ (fs : AFS) (c : String) (o : WriteOutcome) (p : String),
      p ≠ scrape_epstein.INVENTORY_FILE →
      afsGet (scrape_epstein.save_inventory fs c o) p = afsGet fs p) ∧
    (∀ (parseInv : String → Option Inventory) (dumpInv : Inventory → String)
        (fs : AFS) (url : String) (data : ItemRec) (o : WriteOutcome)
        (r : ItemRec),
      dictGet (analyze_images.load_inventory parseInv fs) url = some r →
      analyze_images.update_item parseInv dumpInv fs url data o =
        directWrite fs analyze_images.INVENTORY_FILE
          (dumpInv (dictSet (analyze_images.load_inventory parseInv fs) url
            (recUpdate r data))) o) := by
  refine ⟨?_, ?_, ?_, ?_⟩
  · intro fs c
    exact afsGet_afsSet_self fs _ c
  · intro fs c k
    exact afsGet_afsSet_self fs _ _
  · intro fs c o p hp
    cases o with
    | ok => exact afsGet_afsSet_ne fs _ p c hp
    | failAt k => exact afsGet_afsSet_ne fs _ p _ hp
  · intro parseInv dumpInv fs url data o r h
    unfold analyze_images.update_item
    dsimp only
    rw [h]

/-- A concrete `json.dump` oracle for the C6 witness. -/
def dumpC6w : Inventory → String := fun _ => "D"

/-- Witness for C6 amended, at a concrete store and an interrupted write. -/
theorem claim_C6_write_in_place_witness :
    afsGet (scrape_epstein.save_inventory
        [(scrape_epstein.INVENTORY_FILE, "OLD")] "NEW" (.failAt 1))
      scrape_epstein.INVENTORY_FILE = some (String.mk ("NEW".data.take 1)) ∧
    analyze_images.update_item (fun _ => some [("u", [("k", "v")])])
        dumpC6w [("inventory.json", "raw")] "u" [("a", "b")] .ok =
      directWrite [("inventory.json", "raw")] analyze_images.INVENTORY_FILE
        (dumpC6w (dictSet (analyze_images.load_inventory
          (fun _ => some [("u", [("k", "v")])]) [("inventory.json", "raw")]) "u"
          (recUpdate [("k", "v")] [("a", "b")]))) .ok :=
  ⟨claim_C6_write_in_place.2.1 [(scrape_epstein.INVENTORY_FILE, "OLD")] "NEW" 1,
   claim_C6_write_in_place.2.2.2 (fun _ => some [("u", [("k", "v")])]) dumpC6w
     [("inventory.json", "raw")] "u" [("a", "b")] .ok [("k", "v")] (by decide)⟩

/-! ## Claim C7: tolerant loads and the repair backup (corrected) -/

theorem repairFallback_frame {V : Type} (parse : String → repair_inventory.ParseRes V)
    (dump : V → String) (fs : AFS) (content : String) (pos : Nat) (p : String)
    (hp : p ≠ repair_inventory.INVENTORY_FILE) :
    afsGet (repair_inventory.repairFallback parse dump fs content pos) p =
      afsGet fs p := by
  unfold repair_inventory.repairFallback
  dsimp only
  cases repair_inventory.rfindComma (String.mk (content.data.take pos)) with
  | none => rfl
  | some last_comma =>
    dsimp only
    cases parse (String.mk ((String.mk (content.data.take pos)).data.take
        last_comma) ++ "\n\x7d") with
    | ok d => exact afsGet_afsSet_ne fs _ p _ hp
    | errExtra q => rfl
    | errOther q => rfl

/-- C7 amended: loading the item store or the sync state returns an empty
mapping (for the sync state, empty partitions) and never raises when the
backing file is absent or unparsable; `repair` preserves the corrupt content
as a backup before any repair attempt provided no backup file exists yet —
when a backup from an earlier corruption already exists, it is kept and the
newly corrupt content is not backed up. -/
theorem claim_C7_load_and_backup :
    (∀ (parseSync : String → Option ingest_to_firebase.RawSync) (fs : AFS),
      afsGet fs ingest_to_firebase.STATE_FILE = none →
      ingest_to_firebase.load_state parseSync fs = ⟨some [], some [], some []⟩) ∧
    (∀ (parseSync : String → Option ingest_to_firebase.RawSync) (fs : AFS)
        (content : String),
      afsGet fs ingest_to_firebase.STATE_FILE = some content →
      parseSync content = none →
      ingest_to_firebase.load_state parseSync fs = ⟨some [], some [], some []⟩) ∧
    (∀ (parseInv : String → Option Inventory) (fs : AFS),
      afsGet fs analyze_images.INVENTORY_FILE = none →
      analyze_images.load_inventory parseInv fs = []) ∧
    (∀ (parseInv : String → Option Inventory) (fs : AFS) (content : String),
      afsGet fs analyze_images.INVENTORY_FILE = some content →
      parseInv content = none →
      analyze_images.load_inventory parseInv fs = []) ∧
    (∀ {V : Type} (parse : String → repair_inventory.ParseRes V)
        (dump : V → String) (fs : AFS) (content : String),
      afsGet fs repair_inventory.INVENTORY_FILE = some content →
      afsGet fs repair_inventory.BACKUP_FILE = none →
      afsGet (repair_inventory.repair parse dump fs)
        repair_inventory.BACKUP_FILE = some content) ∧
    (∀ {V : Type} (parse : String → repair_inventory.ParseRes V)
        (dump : V → String) (fs : AFS) (b : String),
      afsGet fs repair_inventory.BACKUP_FILE = some b →
      afsGet (repair_inventory.repair parse dump fs)
        repair_inventory.BACKUP_FILE = some b) := by
  have hne : repair_inventory.BACKUP_FILE ≠ repair_inventory.INVENTORY_FILE := by
    decide
  refine ⟨?_, ?_, ?_, ?_, ?_, ?_⟩
  · intro parseSync fs h
    unfold ingest_to_firebase.load_state
    rw [h]
  · intro parseSync fs content h hp
    unfold ingest_to_firebase.load_state
    rw [h]
    dsimp only
    rw [hp]
  · intro parseInv fs h
    unfold analyze_images.load_inventory
    rw [h]
  · intro parseInv fs content h hp
    unfold analyze_images.load_inventory
    rw [h]
    dsimp only
    rw [hp]
    rfl
  · intro V parse dump fs content hc hb
    unfold repair_inventory.repair
    rw [hc]
    dsimp only
    rw [hb]
    simp only [Option.isNone_none, if_pos rfl]
    cases parse content with
    | ok d => exact afsGet_afsSet_self fs _ content
    | errExtra pos =>
      dsimp only
      cases parse (String.mk (content.data.take pos)) with
      | ok d =>
        rw [afsGet_afsSet_ne _ _ _ _ hne]
        exact afsGet_afsSet_self fs _ content
      | errExtra q =>
        rw [repairFallback_frame _ _ _ _ _ _ hne]
        exact afsGet_afsSet_self fs _ content
      | errOther q =>
        rw [repairFallback_frame _ _ _ _ _ _ hne]
        exact afsGet_afsSet_self fs _ content
    | errOther pos =>
      rw [repairFallback_frame _ _ _ _ _ _ hne]
      exact afsGet_afsSet_self fs _ content
  · intro V parse dump fs b hb
    unfold repair_inventory.repair
    cases hc : afsGet fs repair_inventory.INVENTORY_FILE with
    | none => exact hb
    | some content =>
      dsimp only
      rw [hb]
      simp only [Option.isNone_some]
      cases parse content with
      | ok d => exact hb
      | errExtra pos =>
        dsimp only
        cases parse (String.mk (content.data.take pos)) with
        | ok d => rw [afsGet_afsSet_ne _ _ _ _ hne]; exact hb
        | errExtra q => rw [repairFallback_frame _ _ _ _ _ _ hne]; exact hb
        | errOther q => rw [repairFallback_frame _ _ _ _ _ _ hne]; exact hb
      | errOther pos =>
        rw [repairFallback_frame _ _ _ _ _ _ hne]
        exact hb

/-- `json.loads` oracle for the C7 counterexample: `CCCCX` is a store with
trailing garbage ("Extra data" at position 4); its truncation parses. -/
def parseC7 : String → repair_inventory.ParseRes Nat :=
  fun s => if s = "CCCCX" then .errExtra 4
    else if s = "CCCC" then .ok 1 else .errOther 0

/-- `json.dump` oracle for the C7 counterexample. -/
def dumpC7 : Nat → String := fun _ => "CCCC"

/-- Store for the C7 counterexample: corrupt inventory, and a backup left by
an earlier corruption. -/
def fsC7 : AFS :=
  [("inventory.json", "CCCCX"), ("inventory.json.corrupted_bak", "OLDBAK")]

/-- Counterexample to C7 as stated: when a backup file already exists,
`repair()` rewrites the corrupt store without backing it up first — after
the repair the original corrupt content (`CCCCX`) is preserved nowhere. -/
theorem claim_C7_counterexample :
    afsGet fsC7 repair_inventory.INVENTORY_FILE = some "CCCCX" ∧
    afsGet (repair_inventory.repair parseC7 dumpC7 fsC7)
      repair_inventory.BACKUP_FILE ≠ some "CCCCX" ∧
    afsGet (repair_inventory.repair parseC7 dumpC7 fsC7)
      repair_inventory.INVENTORY_FILE ≠ some "CCCCX" := by decide

/-- Witness for C7 amended: an absent state file loads as empty partitions;
a first corruption is backed up before repair; an existing backup survives. -/
theorem claim_C7_load_and_backup_witness :
    ingest_to_firebase.load_state (fun _ => none) [] =
      ⟨some [], some [], some []⟩ ∧
    afsGet (repair_inventory.repair parseC7 dumpC7 [("inventory.json", "CCCCX")])
      repair_inventory.BACKUP_FILE = some "CCCCX" ∧
    afsGet (repair_inventory.repair parseC7 dumpC7 fsC7)
      repair_inventory.BACKUP_FILE = some "OLDBAK" :=
  ⟨claim_C7_load_and_backup.1 (fun _ => none) [] (by decide),
   claim_C7_load_and_backup.2.2.2.2.1 parseC7 dumpC7 [("inventory.json", "CCCCX")]
     "CCCCX" (by decide) (by decide),
   claim_C7_load_and_backup.2.2.2.2.2 parseC7 dumpC7 fsC7 "OLDBAK" (by decide)⟩

/-! ## Claim C9: faces are skipped, not degraded, without vector support
(corrected) -/

namespace ingest_to_firebase

/-- Filesystem oracle for the C9/C4-style face fixtures: one PDF, one
extracted image with a `faces.json` holding one face with a non-empty
feature vector. -/
def fsC9 : IngestFS where
  exists_ := fun p => p = "epstein_files/001/images" ||
    p = "epstein_files/001/images/page1_img1/faces.json"
  mtime := fun _ => 5
  listdir := fun p => if p = "epstein_files/001/images" then ["page1_img1"] else []
  isdir := fun p => p = "epstein_files/001/images/page1_img1"
  readJson := fun _ => none
  readFaces := fun p =>
    if p = "epstein_files/001/images/page1_img1/faces.json" then
      some [{ embedding := some [1, 2], kps := some [[3, 4]],
              bbox := some [0, 0, 1, 1], det_score := some 9 }]
    else none
  upload := fun _ _ => none

/-- Inventory for the C9 fixture. -/
def invC9 : List (String × Meta) :=
  [("http://x/001.pdf", { local_path := some "epstein_files/001.pdf" })]

/-- Counterexample to C9 as stated: with the native vector type unavailable
the pass publishes nothing at all — the same input that yields one Face
entity with vector support yields zero staged and zero committed entities
without it (so faces are dropped, not degraded to list storage). -/
theorem claim_C9_counterexample :
    (ingest_faces false fsC9 (fun _ => true) invC9 [] false).committed = [] ∧
    (ingest_faces false fsC9 (fun _ => true) invC9 [] false).staged = [] ∧
    (ingest_faces true fsC9 (fun _ => true) invC9 [] false).committed.length = 1 := by
  decide

/-- C9 amended: when the remote store's native vector type is unavailable,
`ingest_faces` skips the whole pass: it reports the skip clearly and
publishes no Face entities, uploads nothing into a batch, and leaves the
faces sync state unchanged. -/
theorem claim_C9_vector_unavailable (fs : IngestFS) (commitOk : Nat → Bool)
    (inventory : List (String × Meta)) (face_state₀ : List (String × Nat))
    (force : Bool) :
    ingest_faces false fs commitOk inventory face_state₀ force =
      { face_state := face_state₀, vectorSkipReported := true } := by
  unfold ingest_faces
  rw [if_pos (by decide)]

/-! ## Claim C8: exact face projection -/

theorem faceCommit_true_staged (st : FacePass) :
    (faceCommit (fun _ => true) st).staged = st.staged ∧
    (faceCommit (fun _ => true) st).aborted = st.aborted := by
  unfold faceCommit
  simp

/-- The per-face record builder that the staging fold realizes: only a face
with a non-empty embedding yields an entry, with id `{image_db_id}_{i}`. -/
theorem process_face_fold_staged (image_db_id doc_id img_name doc_title : String)
    (page_num : Option Nat) (faces : List FaceRec) (n : Nat) (st : FacePass)
    (h : st.aborted = false) :
    ((List.enumFrom n faces).foldl
        (process_face (fun _ => true) image_db_id doc_id img_name doc_title
          page_num) st).staged =
      st.staged ++ (List.enumFrom n faces).filterMap (fun p =>
        match p.2.embedding with
        | none => none
        | some e =>
          if e.isEmpty then none
          else some (image_db_id ++ "_" ++ toString p.1,
            ({ parent_image_id := image_db_id
               parent_doc_id := doc_id
               bbox := p.2.bbox
               det_score := p.2.det_score
               kps := convert_kps p.2.kps
               embedding := ⟨e⟩
               image_name := img_name
               doc_title := doc_title
               page_num := page_num } : FaceDoc))) ∧
    ((List.enumFrom n faces).foldl
        (process_face (fun _ => true) image_db_id doc_id img_name doc_title
          page_num) st).aborted = false := by
  induction faces generalizing n st with
  | nil => exact ⟨by simp, h⟩
  | cons f t ih =>
    have hna : ¬ st.aborted = true := by simp [h]
    simp only [List.enumFrom, List.foldl, List.filterMap_cons]
    cases hemb : f.embedding with
    | none =>
      have hstep : process_face (fun _ => true) image_db_id doc_id img_name
          doc_title page_num st (n, f) = st := by
        unfold process_face
        rw [if_neg hna]
        dsimp only
        rw [hemb]
      rw [hstep]
      dsimp only
      exact ih (n + 1) st h
    | some e =>
      by_cases he : e.isEmpty = true
      · have hstep : process_face (fun _ => true) image_db_id doc_id img_name
            doc_title page_num st (n, f) = st := by
          unfold process_face
          rw [if_neg hna]
          dsimp only
          rw [hemb]
          dsimp only
          rw [if_pos he]
        rw [hstep]
        dsimp only
        rw [if_pos he]
        dsimp only
        exact ih (n + 1) st h
      · have hstep : (process_face (fun _ => true) image_db_id doc_id img_name
              doc_title page_num st (n, f)).staged =
            st.staged ++ [(image_db_id ++ "_" ++ toString n,
              ({ parent_image_id := image_db_id
                 parent_doc_id := doc_id
                 bbox := f.bbox
                 det_score := f.det_score
                 kps := convert_kps f.kps
                 embedding := ⟨e⟩
                 image_name := img_name
                 doc_title := doc_title
                 page_num := page_num } : FaceDoc))] ∧
            (process_face (fun _ => true) image_db_id doc_id img_name
              doc_title page_num st (n, f)).aborted = false := by
          unfold process_face
          rw [if_neg hna]
          dsimp only
          rw [hemb]
          dsimp only
          rw [if_neg he]
          try dsimp only
          by_cases hbc : st.batch_count + 1 ≥ 10
          · rw [if_pos hbc]
            exact ⟨(faceCommit_true_staged _).1, by
              rw [(faceCommit_true_staged _).2]; exact h⟩
          · rw [if_neg hbc]
            exact ⟨rfl, h⟩
        have hrec := ih (n + 1)
          (process_face (fun _ => true) image_db_id doc_id img_name doc_title
            page_num st (n, f)) hstep.2
        refine ⟨?_, hrec.2⟩
        rw [hrec.1, hstep.1]
        dsimp only
        rw [if_neg he]
        dsimp only
        rw [List.append_assoc]
        rfl

/-- C8: over any faces artifact, exactly the faces with a non-empty feature
vector are staged as Face entities; the face at ordinal `i` gets id
`{parent image id}_{i}`; its nested keypoint pairs are flattened into
objects with named `x`/`y` fields, and its vector is wrapped in the native
vector type. -/
theorem claim_C8_face_projection :
    (∀ (image_db_id doc_id img_name doc_title : String) (page_num : Option Nat)
        (faces_data : List FaceRec) (st : FacePass), st.aborted = false →
      (faces_data.enum.foldl
          (process_face (fun _ => true) image_db_id doc_id img_name doc_title
            page_num) st).staged =
        st.staged ++ faces_data.enum.filterMap (fun p =>
          match p.2.embedding with
          | none => none
          | some e =>
            if e.isEmpty then none
            else some (image_db_id ++ "_" ++ toString p.1,
              ({ parent_image_id := image_db_id
                 parent_doc_id := doc_id
                 bbox := p.2.bbox
                 det_score := p.2.det_score
                 kps := convert_kps p.2.kps
                 embedding := ⟨e⟩
                 image_name := img_name
                 doc_title := doc_title
                 page_num := page_num } : FaceDoc)))) ∧
    (∀ (l : List (List Int)), l ≠ [] →
      convert_kps (some l) = .flat (l.filterMap (fun p =>
        match p with
        | x :: y :: _ => some (⟨x, y⟩ : Keypoint)
        | _ => none))) := by
  constructor
  · intro image_db_id doc_id img_name doc_title page_num faces_data st h
    exact (process_face_fold_staged image_db_id doc_id img_name doc_title
      page_num faces_data 0 st h).1
  · intro l hl
    unfold convert_kps
    dsimp only
    rw [if_neg (by simpa using hl)]

/-- Faces artifact for the C8 witness: one projectable face (its second
keypoint pair is short and is dropped by the flattening), one face without
an embedding, one with an empty embedding, one more projectable. -/
def facesC8 : List ingest_to_firebase.FaceRec :=
  [{ embedding := some [1, 2], kps := some [[3, 4], [5]] },
   { embedding := none },
   { embedding := some [] },
   { embedding := some [7], kps := none }]

/-- Witness for C8 at the concrete faces artifact. -/
theorem claim_C8_face_projection_witness :
    ((facesC8.enum).foldl
        (process_face (fun _ => true) "d_i" "d" "i" "T" none)
        { face_state := [] }).staged =
      ([] : List (String × FaceDoc)) ++ facesC8.enum.filterMap (fun p =>
        match p.2.embedding with
        | none => none
        | some e =>
          if e.isEmpty then none
          else some ("d_i" ++ "_" ++ toString p.1,
            ({ parent_image_id := "d_i"
               parent_doc_id := "d"
               bbox := p.2.bbox
               det_score := p.2.det_score
               kps := convert_kps p.2.kps
               embedding := ⟨e⟩
               image_name := "i"
               doc_title := "T"
               page_num := none } : FaceDoc))) ∧
    convert_kps (some [[3, 4], [5]]) =
      .flat ([[3, 4], [5]].filterMap (fun p =>
        match p with
        | x :: y :: _ => some (⟨x, y⟩ : Keypoint)
        | _ => none)) :=
  ⟨claim_C8_face_projection.1 "d_i" "d" "i" "T" none facesC8
      { face_state := [] } rfl,
   claim_C8_face_projection.2 [[3, 4], [5]] (by decide)⟩

/-! ## Claim C4: image projection and the concrete publish scenario -/

/-- Filesystem for the C4 scenario: one downloaded PDF `001.pdf` whose
extracted image `page1_img1` has `eval.json` (mtime 7), `medium.avif`
(mtime 5) and `thumb.avif` (mtime 6); uploads succeed. -/
def fsC4 : IngestFS where
  exists_ := fun p => p = "epstein_files/001/images" ||
    p = "epstein_files/001/images/page1_img1/eval.json" ||
    p = "epstein_files/001/images/page1_img1/medium.avif" ||
    p = "epstein_files/001/images/page1_img1/thumb.avif"
  mtime := fun p =>
    if p = "epstein_files/001/images/page1_img1/medium.avif" then 5
    else if p = "epstein_files/001/images/page1_img1/thumb.avif" then 6
    else if p = "epstein_files/001/images/page1_img1/eval.json" then 7
    else 0
  listdir := fun p => if p = "epstein_files/001/images" then ["page1_img1"] else []
  isdir := fun p => p = "epstein_files/001/images/page1_img1"
  readJson := fun p =>
    if p = "epstein_files/001/images/page1_img1/eval.json" then some "EVAL"
    else none
  readFaces := fun _ => none
  upload := fun _ d => some ("https://cdn/" ++ d)

/-- Inventory for the C4 scenario. -/
def invC4 : List (String × Meta) :=
  [("http://x/001.pdf", { local_path := some "epstein_files/001.pdf" })]

/-- C4: an extracted image with no eval artifact, or an unparsable one, is
not projected at all; for the scenario item with eval/medium/thumb present,
one publish pass commits exactly one Image entity with id `001_page1_img1`
and records the max dependent mtime in the images sync state, and a second
pass over the unchanged filesystem performs zero uploads and zero commits. -/
theorem claim_C4_image_projection :
    (∀ (fs : IngestFS) (commitOk : Nat → Bool) (force : Bool)
        (url : String) (source_page : Option String) (doc_id images_root : String)
        (st : ImgPass) (img_name : String),
      fs.exists_ (pathJoin (pathJoin images_root img_name) "eval.json") = false →
      process_image fs commitOk force url source_page doc_id images_root st
        img_name = st) ∧
    (∀ (fs : IngestFS) (commitOk : Nat → Bool) (force : Bool)
        (url : String) (source_page : Option String) (doc_id images_root : String)
        (st : ImgPass) (img_name : String),
      fs.readJson (pathJoin (pathJoin images_root img_name) "eval.json") = none →
      process_image fs commitOk force url source_page doc_id images_root st
        img_name = st) ∧
    ((ingest_images fsC4 (fun _ => true) invC4 [] false).committed.map
        Prod.fst = ["001_page1_img1"] ∧
      dictGet (ingest_images fsC4 (fun _ => true) invC4 [] false).img_state
          "001_page1_img1" =
        some (get_max_mtime fsC4
          ["epstein_files/001/images/page1_img1/medium.avif",
           "epstein_files/001/images/page1_img1/thumb.avif",
           "epstein_files/001/images/page1_img1/analysis.json",
           "epstein_files/001/images/page1_img1/eval.json",
           "epstein_files/001/images/page1_img1/ocr.txt",
           "epstein_files/001/images/page1_img1/ocr.md"]) ∧
      (ingest_images fsC4 (fun _ => true) invC4 [] false).commits = 1) ∧
    ((ingest_images fsC4 (fun _ => true) invC4
        (ingest_images fsC4 (fun _ => true) invC4 [] false).img_state
        false).uploads = 0 ∧
      (ingest_images fsC4 (fun _ => true) invC4
        (ingest_images fsC4 (fun _ => true) invC4 [] false).img_state
        false).commits = 0 ∧
      (ingest_images fsC4 (fun _ => true) invC4
        (ingest_images fsC4 (fun _ => true) invC4 [] false).img_state
        false).committed = []) := by
  refine ⟨?_, ?_, by decide, by decide⟩
  · intro fs commitOk force url source_page doc_id images_root st img_name h
    unfold process_image
    by_cases ha : st.aborted = true
    · rw [if_pos ha]
    · rw [if_neg ha]
      dsimp only
      by_cases hd : fs.isdir (pathJoin images_root img_name) = true
      · rw [if_neg (by simp [hd])]
        try dsimp only
        rw [if_pos (by simp [h])]
      · rw [if_pos (by simp [hd])]
  · intro fs commitOk force url source_page doc_id images_root st img_name h
    unfold process_image
    by_cases ha : st.aborted = true
    · rw [if_pos ha]
    · rw [if_neg ha]
      dsimp only
      by_cases hd : fs.isdir (pathJoin images_root img_name) = true
      · rw [if_neg (by simp [hd])]
        try dsimp only
        by_cases he : fs.exists_ (pathJoin (pathJoin images_root img_name)
            "eval.json") = true
        · rw [if_neg (by simp [he])]
          try dsimp only
          rw [h]
        · rw [if_pos (by simp [he])]
      · rw [if_pos (by simp [hd])]

/-- `fsC4` with an eval artifact that fails to parse. -/
def fsC4bad : IngestFS := { fsC4 with readJson := fun _ => none }

/-- Witness for C4's non-projection parts: a missing eval artifact and an
unparsable one both leave the pass state untouched. -/
theorem claim_C4_image_projection_witness :
    process_image fsC9 (fun _ => true) false "http://x/001.pdf" none "001"
      "epstein_files/001/images" { img_state := [] } "page1_img1" =
      { img_state := [] } ∧
    process_image fsC4bad (fun _ => true) false "http://x/001.pdf" none "001"
      "epstein_files/001/images" { img_state := [] } "page1_img1" =
      { img_state := [] } :=
  ⟨claim_C4_image_projection.1 fsC9 (fun _ => true) false "http://x/001.pdf"
      none "001" "epstein_files/001/images" { img_state := [] } "page1_img1"
      (by decide),
   claim_C4_image_projection.2.1 fsC4bad (fun _ => true) false "http://x/001.pdf"
      none "001" "epstein_files/001/images" { img_state := [] } "page1_img1"
      rfl⟩

/-! ## Claim C1: commit atomicity of the publish passes -/

/-- Before any commit has been attempted, one `ingest_documents` iteration
cannot advance the sync state when the first commit is doomed to fail. -/
theorem process_document_no_progress (fs : IngestFS) (commitOk : Nat → Bool)
    (force : Bool) (hc : commitOk 0 = false) (st : DocPass)
    (entry : String × Meta) (h1 : st.commits = 0 ∨ st.aborted = true) :
    (process_document fs commitOk force st entry).doc_state = st.doc_state ∧
    ((process_document fs commitOk force st entry).commits = 0 ∨
      (process_document fs commitOk force st entry).aborted = true) := by
  unfold process_document
  by_cases ha : st.aborted = true
  · rw [if_pos ha]
    exact ⟨rfl, h1⟩
  · have h0 : st.commits = 0 := h1.resolve_right ha
    rw [if_neg ha]
    dsimp only
    repeat' split
    all_goals try exact ⟨rfl, h1⟩
    all_goals unfold docCommit
    all_goals dsimp only
    all_goals rw [h0, hc]
    all_goals rw [if_neg (by decide)]
    all_goals exact ⟨rfl, Or.inr rfl⟩

/-- Images analogue of `process_document_no_progress`. -/
theorem process_image_no_progress (fs : IngestFS) (commitOk : Nat → Bool)
    (force : Bool) (url : String) (source_page : Option String)
    (doc_id images_root : String) (hc : commitOk 0 = false) (st : ImgPass)
    (img_name : String) (h1 : st.commits = 0 ∨ st.aborted = true) :
    (process_image fs commitOk force url source_page doc_id images_root st
      img_name).img_state = st.img_state ∧
    ((process_image fs commitOk force url source_page doc_id images_root st
        img_name).commits = 0 ∨
      (process_image fs commitOk force url source_page doc_id images_root st
        img_name).aborted = true) := by
  unfold process_image
  by_cases ha : st.aborted = true
  · rw [if_pos ha]
    exact ⟨rfl, h1⟩
  · have h0 : st.commits = 0 := h1.resolve_right ha
    rw [if_neg ha]
    dsimp only
    repeat' split
    all_goals try exact ⟨rfl, h1⟩
    all_goals unfold imgCommit
    all_goals dsimp only
    all_goals rw [h0, hc]
    all_goals rw [if_neg (by decide)]
    all_goals exact ⟨rfl, Or.inr rfl⟩

/-- Images item-level no-progress: the per-item image loop. -/
theorem process_images_item_no_progress (fs : IngestFS) (commitOk : Nat → Bool)
    (force : Bool) (hc : commitOk 0 = false) (st : ImgPass)
    (entry : String × Meta) (h1 : st.commits = 0 ∨ st.aborted = true) :
    (process_images_item fs commitOk force st entry).img_state = st.img_state ∧
    ((process_images_item fs commitOk force st entry).commits = 0 ∨
      (process_images_item fs commitOk force st entry).aborted = true) := by
  have main : ∀ (l : List String) (url : String) (source_page : Option String)
      (doc_id images_root : String) (st : ImgPass),
      st.commits = 0 ∨ st.aborted = true →
      (l.foldl (process_image fs commitOk force url source_page doc_id
        images_root) st).img_state = st.img_state ∧
      ((l.foldl (process_image fs commitOk force url source_page doc_id
          images_root) st).commits = 0 ∨
        (l.foldl (process_image fs commitOk force url source_page doc_id
          images_root) st).aborted = true) := by
    intro l url source_page doc_id images_root
    induction l with
    | nil => intro st h; exact ⟨rfl, h⟩
    | cons i t ih =>
      intro st h
      have hstep := process_image_no_progress fs commitOk force url source_page
        doc_id images_root hc st i h
      have hrec := ih _ hstep.2
      exact ⟨hrec.1.trans hstep.1, hrec.2⟩
  unfold process_images_item
  by_cases ha : st.aborted = true
  · rw [if_pos ha]
    exact ⟨rfl, h1⟩
  · rw [if_neg ha]
    dsimp only
    repeat' split
    all_goals try exact ⟨rfl, h1⟩
    all_goals exact main _ _ _ _ _ _ h1

/-- No sync-state progress from an `ingest_images` pass whose first commit
attempt fails. -/
theorem ingest_images_no_progress (fs : IngestFS) (commitOk : Nat → Bool)
    (inv : List (String × Meta)) (s0 : List (String × Nat)) (force : Bool)
    (hc : commitOk 0 = false) :
    (ingest_images fs commitOk inv s0 force).img_state = s0 := by
  have main : ∀ (l : List (String × Meta)) (st : ImgPass),
      st.commits = 0 ∨ st.aborted = true →
      (List.foldl (process_images_item fs commitOk force) st l).img_state =
        st.img_state ∧
      ((List.foldl (process_images_item fs commitOk force) st l).commits = 0 ∨
        (List.foldl (process_images_item fs commitOk force) st l).aborted
          = true) := by
    intro l
    induction l with
    | nil => intro st h; exact ⟨rfl, h⟩
    | cons e t ih =>
      intro st h
      have hstep := process_images_item_no_progress fs commitOk force hc st e h
      have hrec := ih _ hstep.2
      exact ⟨hrec.1.trans hstep.1, hrec.2⟩
  unfold ingest_images
  have hm := main inv { img_state := s0 } (Or.inl rfl)
  dsimp only
  by_cases hab : (List.foldl (process_images_item fs commitOk force)
      { img_state := s0 } inv).aborted = true
  · rw [if_pos hab]
    exact hm.1
  · rw [if_neg hab]
    by_cases hb : (List.foldl (process_images_item fs commitOk force)
        { img_state := s0 } inv).batch_count > 0
    · rw [if_pos hb]
      unfold imgCommit
      simp only [hm.2.resolve_right hab, hc, Bool.false_eq_true, if_false]
      exact hm.1
    · rw [if_neg hb]
      exact hm.1

/-- Documents pass-level no-progress. -/
theorem ingest_documents_no_progress (fs : IngestFS) (commitOk : Nat → Bool)
    (inv : List (String × Meta)) (s0 : List (String × Nat)) (force : Bool)
    (hc : commitOk 0 = false) :
    (ingest_documents fs commitOk inv s0 force).doc_state = s0 := by
  have main : ∀ (l : List (String × Meta)) (st : DocPass),
      st.commits = 0 ∨ st.aborted = true →
      (List.foldl (process_document fs commitOk force) st l).doc_state =
        st.doc_state ∧
      ((List.foldl (process_document fs commitOk force) st l).commits = 0 ∨
        (List.foldl (process_document fs commitOk force) st l).aborted
          = true) := by
    intro l
    induction l with
    | nil => intro st h; exact ⟨rfl, h⟩
    | cons e t ih =>
      intro st h
      have hstep := process_document_no_progress fs commitOk force hc st e h
      have hrec := ih _ hstep.2
      exact ⟨hrec.1.trans hstep.1, hrec.2⟩
  unfold ingest_documents
  have hm := main inv { doc_state := s0 } (Or.inl rfl)
  dsimp only
  by_cases hab : (List.foldl (process_document fs commitOk force)
      { doc_state := s0 } inv).aborted = true
  · rw [if_pos hab]
    exact hm.1
  · rw [if_neg hab]
    by_cases hb : (List.foldl (process_document fs commitOk force)
        { doc_state := s0 } inv).batch_count > 0
    · rw [if_pos hb]
      unfold docCommit
      simp only [hm.2.resolve_right hab, hc, Bool.false_eq_true, if_false]
      exact hm.1
    · rw [if_neg hb]
      exact hm.1

/-- Faces analogue: one face iteration never touches `face_state`, and under
a doomed first commit it keeps the commit count at zero or aborts. -/
theorem process_face_no_progress (commitOk : Nat → Bool)
    (image_db_id doc_id img_name doc_title : String) (page_num : Option Nat)
    (hc : commitOk 0 = false) (st : FacePass) (iface : Nat × FaceRec)
    (h1 : st.commits = 0 ∨ st.aborted = true) :
    (process_face commitOk image_db_id doc_id img_name doc_title page_num st
      iface).face_state = st.face_state ∧
    ((process_face commitOk image_db_id doc_id img_name doc_title page_num st
        iface).commits = 0 ∨
      (process_face commitOk image_db_id doc_id img_name doc_title page_num st
        iface).aborted = true) := by
  unfold process_face
  by_cases ha : st.aborted = true
  · rw [if_pos ha]
    exact ⟨rfl, h1⟩
  · have h0 : st.commits = 0 := h1.resolve_right ha
    rw [if_neg ha]
    dsimp only
    repeat' split
    all_goals try exact ⟨rfl, h1⟩
    all_goals unfold faceCommit
    all_goals dsimp only
    all_goals rw [h0, hc]
    all_goals rw [if_neg (by decide)]
    all_goals exact ⟨rfl, Or.inr rfl⟩

theorem faces_fold_no_progress (commitOk : Nat → Bool)
    (image_db_id doc_id img_name doc_title : String) (page_num : Option Nat)
    (hc : commitOk 0 = false) (l : List (Nat × FaceRec)) (st : FacePass)
    (h1 : st.commits = 0 ∨ st.aborted = true) :
    (l.foldl (process_face commitOk image_db_id doc_id img_name doc_title
      page_num) st).face_state = st.face_state ∧
    ((l.foldl (process_face commitOk image_db_id doc_id img_name doc_title
        page_num) st).commits = 0 ∨
      (l.foldl (process_face commitOk image_db_id doc_id img_name doc_title
        page_num) st).aborted = true) := by
  induction l generalizing st with
  | nil => exact ⟨rfl, h1⟩
  | cons p t ih =>
    have hstep := process_face_no_progress commitOk image_db_id doc_id img_name
      doc_title page_num hc st p h1
    have hrec := ih _ hstep.2
    exact ⟨hrec.1.trans hstep.1, hrec.2⟩

theorem process_faces_image_no_progress (fs : IngestFS) (commitOk : Nat → Bool)
    (force : Bool) (doc_id doc_title images_root : String)
    (hc : commitOk 0 = false) (st : FacePass) (img_name : String)
    (h1 : st.commits = 0 ∨ st.aborted = true) :
    (process_faces_image fs commitOk force doc_id doc_title images_root st
      img_name).face_state = st.face_state ∧
    ((process_faces_image fs commitOk force doc_id doc_title images_root st
        img_name).commits = 0 ∨
      (process_faces_image fs commitOk force doc_id doc_title images_root st
        img_name).aborted = true) := by
  unfold process_faces_image
  by_cases ha : st.aborted = true
  · rw [if_pos ha]
    exact ⟨rfl, h1⟩
  · rw [if_neg ha]
    dsimp only
    by_cases hd : fs.isdir (pathJoin images_root img_name) = true
    case neg =>
      rw [if_pos (by simp [hd])]
      exact ⟨rfl, h1⟩
    case pos =>
      rw [if_neg (by simp [hd])]
      try dsimp only
      by_cases he : fs.exists_ (pathJoin (pathJoin images_root img_name)
          "faces.json") = true
      case neg =>
        rw [if_pos (by simp [he])]
        exact ⟨rfl, h1⟩
      case pos =>
        rw [if_neg (by simp [he])]
        try dsimp only
        by_cases hs : skip_fresh force
            (fs.mtime (pathJoin (pathJoin images_root img_name) "faces.json"))
            (dictGetD st.face_state (doc_id ++ "_" ++ img_name) 0) = true
        case pos =>
          rw [if_pos hs]
          exact ⟨rfl, h1⟩
        case neg =>
          rw [if_neg hs]
          cases hrf : fs.readFaces (pathJoin (pathJoin images_root img_name)
              "faces.json") with
          | none => exact ⟨rfl, h1⟩
          | some faces_data =>
            dsimp only
            by_cases hne : faces_data.isEmpty = true
            case pos =>
              rw [if_pos hne]
              exact ⟨rfl, h1⟩
            case neg =>
              rw [if_neg hne]
              try dsimp only
              have h2 := faces_fold_no_progress commitOk
                (doc_id ++ "_" ++ img_name) doc_id img_name doc_title
                (parse_page_num img_name) hc faces_data.enum st h1
              by_cases hab : (faces_data.enum.foldl (process_face commitOk
                  (doc_id ++ "_" ++ img_name) doc_id img_name doc_title
                  (parse_page_num img_name)) st).aborted = true
              case pos =>
                rw [if_pos hab]
                exact ⟨h2.1, Or.inr hab⟩
              case neg =>
                rw [if_neg hab]
                try dsimp only
                have h0 : (faces_data.enum.foldl (process_face commitOk
                    (doc_id ++ "_" ++ img_name) doc_id img_name doc_title
                    (parse_page_num img_name)) st).commits = 0 :=
                  h2.2.resolve_right hab
                split
                · unfold faceCommit
                  dsimp only
                  rw [h0, hc]
                  rw [if_neg (by decide)]
                  exact ⟨h2.1, Or.inr rfl⟩
                · exact ⟨h2.1, h2.2⟩

theorem process_faces_item_no_progress (fs : IngestFS) (commitOk : Nat → Bool)
    (force : Bool) (hc : commitOk 0 = false) (st : FacePass)
    (entry : String × Meta) (h1 : st.commits = 0 ∨ st.aborted = true) :
    (process_faces_item fs commitOk force st entry).face_state = st.face_state ∧
    ((process_faces_item fs commitOk force st entry).commits = 0 ∨
      (process_faces_item fs commitOk force st entry).aborted = true) := by
  have main : ∀ (l : List String) (doc_id doc_title images_root : String)
      (st : FacePass), st.commits = 0 ∨ st.aborted = true →
      (l.foldl (process_faces_image fs commitOk force doc_id doc_title
        images_root) st).face_state = st.face_state ∧
      ((l.foldl (process_faces_image fs commitOk force doc_id doc_title
          images_root) st).commits = 0 ∨
        (l.foldl (process_faces_image fs commitOk force doc_id doc_title
          images_root) st).aborted = true) := by
    intro l doc_id doc_title images_root
    induction l with
    | nil => intro st h; exact ⟨rfl, h⟩
    | cons i t ih =>
      intro st h
      have hstep := process_faces_image_no_progress fs commitOk force doc_id
        doc_title images_root hc st i h
      have hrec := ih _ hstep.2
      exact ⟨hrec.1.trans hstep.1, hrec.2⟩
  unfold process_faces_item
  by_cases ha : st.aborted = true
  · rw [if_pos ha]
    exact ⟨rfl, h1⟩
  · rw [if_neg ha]
    dsimp only
    repeat' split
    all_goals try exact ⟨rfl, h1⟩
    all_goals exact main _ _ _ _ _ h1

/-- Faces pass-level: with a doomed first commit, either nothing was ever
staged into a batch (zero commits) or the faces sync state is unchanged. -/
theorem ingest_faces_no_progress (fs : IngestFS) (commitOk : Nat → Bool)
    (inv : List (String × Meta)) (s0 : List (String × Nat)) (force : Bool)
    (hc : commitOk 0 = false) :
    (ingest_faces true fs commitOk inv s0 force).commits = 0 ∨
    (ingest_faces true fs commitOk inv s0 force).face_state = s0 := by
  have main : ∀ (l : List (String × Meta)) (st : FacePass),
      st.commits = 0 ∨ st.aborted = true →
      (List.foldl (process_faces_item fs commitOk force) st l).face_state =
        st.face_state ∧
      ((List.foldl (process_faces_item fs commitOk force) st l).commits = 0 ∨
        (List.foldl (process_faces_item fs commitOk force) st l).aborted
          = true) := by
    intro l
    induction l with
    | nil => intro st h; exact ⟨rfl, h⟩
    | cons e t ih =>
      intro st h
      have hstep := process_faces_item_no_progress fs commitOk force hc st e h
      have hrec := ih _ hstep.2
      exact ⟨hrec.1.trans hstep.1, hrec.2⟩
  unfold ingest_faces
  rw [if_neg (by decide)]
  dsimp only
  have hm := main inv { face_state := s0 } (Or.inl rfl)
  by_cases hab : (List.foldl (process_faces_item fs commitOk force)
      { face_state := s0 } inv).aborted = true
  · rw [if_pos hab]
    exact Or.inr hm.1
  · rw [if_neg hab]
    have h0 : (List.foldl (process_faces_item fs commitOk force)
        { face_state := s0 } inv).commits = 0 := hm.2.resolve_right hab
    try dsimp only
    by_cases hb : (List.foldl (process_faces_item fs commitOk force)
        { face_state := s0 } inv).batch_count > 0
    · rw [if_pos hb]
      unfold faceCommit
      simp only [h0, hc, Bool.false_eq_true, if_false]
      split
      · exact Or.inr hm.1
      · next hcontra =>
          exact absurd trivial hcontra
    · rw [if_neg hb]
      rw [if_neg hab]
      exact Or.inl h0

/-- C1: sync state advances only when a batch commit succeeds, by exactly
the staged fingerprints of that batch (for faces, only at the end of a fully
successful pass); a failed commit raises — aborting the pass with the batch
uncommitted and the sync state as it was; a pass whose first commit fails
records no progress at all, so a subsequent pass starts from the same state
and re-attempts the same entities. -/
theorem claim_C1_commit_atomicity :
    (∀ (commitOk : Nat → Bool) (st : DocPass), commitOk st.commits = false →
      (docCommit commitOk st).doc_state = st.doc_state ∧
      (docCommit commitOk st).committed = st.committed ∧
      (docCommit commitOk st).aborted = true) ∧
    (∀ (commitOk : Nat → Bool) (st : DocPass), commitOk st.commits = true →
      (docCommit commitOk st).doc_state = dictUpdate st.doc_state st.pending ∧
      (docCommit commitOk st).committed = st.committed ++ st.batch) ∧
    (∀ (commitOk : Nat → Bool) (st : ImgPass), commitOk st.commits = false →
      (imgCommit commitOk st).img_state = st.img_state ∧
      (imgCommit commitOk st).committed = st.committed ∧
      (imgCommit commitOk st).aborted = true) ∧
    (∀ (commitOk : Nat → Bool) (st : ImgPass), commitOk st.commits = true →
      (imgCommit commitOk st).img_state = dictUpdate st.img_state st.pending ∧
      (imgCommit commitOk st).committed = st.committed ++ st.batch) ∧
    (∀ (commitOk : Nat → Bool) (st : FacePass),
      (faceCommit commitOk st).face_state = st.face_state ∧
      (commitOk st.commits = false → (faceCommit commitOk st).aborted = true)) ∧
    (∀ (fs : IngestFS) (commitOk : Nat → Bool) (inv : List (String × Meta))
        (s0 : List (String × Nat)) (force : Bool), commitOk 0 = false →
      (ingest_documents fs commitOk inv s0 force).doc_state = s0) ∧
    (∀ (fs : IngestFS) (commitOk : Nat → Bool) (inv : List (String × Meta))
        (s0 : List (String × Nat)) (force : Bool), commitOk 0 = false →
      (ingest_images fs commitOk inv s0 force).img_state = s0) ∧
    (∀ (fs : IngestFS) (commitOk : Nat → Bool) (inv : List (String × Meta))
        (s0 : List (String × Nat)) (force : Bool), commitOk 0 = false →
      (ingest_faces true fs commitOk inv s0 force).commits = 0 ∨
      (ingest_faces true fs commitOk inv s0 force).face_state = s0) ∧
    (∀ (fs : IngestFS) (commitOk commitOk' : Nat → Bool)
        (inv : List (String × Meta)) (s0 : List (String × Nat)) (force : Bool),
      commitOk 0 = false →
      ingest_images fs commitOk' inv
          ((ingest_images fs commitOk inv s0 force).img_state) force =
        ingest_images fs commitOk' inv s0 force) ∧
    (∀ (fs : IngestFS) (commitOk commitOk' : Nat → Bool)
        (inv : List (String × Meta)) (s0 : List (String × Nat)) (force : Bool),
      commitOk 0 = false →
      ingest_documents fs commitOk' inv
          ((ingest_documents fs commitOk inv s0 force).doc_state) force =
        ingest_documents fs commitOk' inv s0 force) := by
  refine ⟨?_, ?_, ?_, ?_, ?_, ?_, ?_, ?_, ?_, ?_⟩
  · intro commitOk st h
    unfold docCommit
    simp only [h, Bool.false_eq_true, if_false]
    refine ⟨?_, ?_, ?_⟩ <;> first | rfl | trivial
  · intro commitOk st h
    unfold docCommit
    simp only [h, if_true]
    refine ⟨?_, ?_⟩ <;> first | rfl | trivial
  · intro commitOk st h
    unfold imgCommit
    simp only [h, Bool.false_eq_true, if_false]
    refine ⟨?_, ?_, ?_⟩ <;> first | rfl | trivial
  · intro commitOk st h
    unfold imgCommit
    simp only [h, if_true]
    refine ⟨?_, ?_⟩ <;> first | rfl | trivial
  · intro commitOk st
    refine ⟨?_, ?_⟩
    · unfold faceCommit
      split
      · rfl
      · rfl
    · intro h
      unfold faceCommit
      simp only [h, Bool.false_eq_true, if_false]
  · exact fun fs commitOk inv s0 force hc =>
      ingest_documents_no_progress fs commitOk inv s0 force hc
  · exact fun fs commitOk inv s0 force hc =>
      ingest_images_no_progress fs commitOk inv s0 force hc
  · exact fun fs commitOk inv s0 force hc =>
      ingest_faces_no_progress fs commitOk inv s0 force hc
  · intro fs commitOk commitOk' inv s0 force hc
    rw [ingest_images_no_progress fs commitOk inv s0 force hc]
  · intro fs commitOk commitOk' inv s0 force hc
    rw [ingest_documents_no_progress fs commitOk inv s0 force hc]

/-- A staged document entity for the C1 witness. -/
def docEntC1 : DocEntity :=
  { title := "t"
    url := "u"
    source_page := none
    preview_medium := "m"
    preview_thumb := "tn"
    filename := "f"
    content := []
    ocr := []
    info := none }

/-- A mid-pass document state with one staged entity, for the C1 witness. -/
def stDocC1 : DocPass :=
  { doc_state := [("d", 1)]
    pending := [("d", 5)]
    batch := [("d", docEntC1)]
    batch_count := 1 }

/-- Witness for C1: a failed commit leaves the sync state and the remote
store untouched; a successful one advances exactly the pending fingerprints;
a pass with a failing commit oracle ends with its initial sync state. -/
theorem claim_C1_commit_atomicity_witness :
    (docCommit (fun _ => false) stDocC1).doc_state = stDocC1.doc_state ∧
    (docCommit (fun _ => true) stDocC1).doc_state =
      dictUpdate stDocC1.doc_state stDocC1.pending ∧
    (ingest_images fsC4 (fun _ => false) invC4 [] false).img_state = [] ∧
    ((ingest_faces true fsC9 (fun _ => false) invC9 [] false).commits = 0 ∨
      (ingest_faces true fsC9 (fun _ => false) invC9 [] false).face_state
        = []) :=
  ⟨(claim_C1_commit_atomicity.1 (fun _ => false) stDocC1 rfl).1,
   (claim_C1_commit_atomicity.2.1 (fun _ => true) stDocC1 rfl).1,
   claim_C1_commit_atomicity.2.2.2.2.2.2.1 fsC4 (fun _ => false) invC4 [] false
     rfl,
   claim_C1_commit_atomicity.2.2.2.2.2.2.2.1 fsC9 (fun _ => false) invC9 []
     false rfl⟩

end ingest_to_firebase

end EpsteinAssistant
